import Mathlib

/-!
Verification of the event-reduction / recording / playback core of the
`adb_util` repository, shallowly embedded in Lean 4.

The definitions below are translated from the Rust sources:
* `src/commands/input_event.rs`  — low-level event data model,
* `src/commands/input.rs`        — reducer/classifier and the recording codec,
* `src/commands/input_player.rs` — playback loop,
* `src/commands/input_event_recorder.rs` — recording controller result handoff.

Machine integers are modelled as `Nat` (for `u32`) and `Int` (for `i32`).
The fallible `u32` arithmetic of the reducer — the two subtractions
(relative timestamp, press duration) and the `abs_diff + abs_diff` distance
addition — is modelled with guards mirroring the debug-build panics:
`ConvertPanic.subUnderflow` for an underflowing subtraction and
`ConvertPanic.addOverflow` for the distance sum exceeding `u32::MAX`.
-/

/-! ### Data model (`input_event.rs`, `input.rs`) -/

inductive TouchType
  | up
  | down
deriving DecidableEq, Repr

inductive InputEvent
  | btnTouch (t : TouchType)
  | absMtTrackingId (v : Int)
  | absMtSlot (v : Int)
  | absMtPosX (v : Int)
  | absMtPosY (v : Int)
  | keyPower (t : TouchType)
deriving DecidableEq, Repr

structure InputEventInfo where
  timestamp_milliseconds : Nat
  event_nr : Int
  event : InputEvent
deriving DecidableEq, Repr

structure Tap where
  x : Int
  y : Int
deriving DecidableEq, Repr

/-- Rust `Swipe { x: [i32;2], y: [i32;2], milliseconds: u32 }`;
`x0/x1` model `x[0]/x[1]` and `y0/y1` model `y[0]/y[1]`. -/
structure Swipe where
  x0 : Int
  x1 : Int
  y0 : Int
  y1 : Int
  milliseconds : Nat
deriving DecidableEq, Repr

inductive Key
  | power
  | back
  | home
  | menu
deriving DecidableEq, Repr

inductive Input
  | tap (t : Tap)
  | swipe (s : Swipe)
  | key (k : Key)
deriving DecidableEq, Repr

structure InputWithTimestamp where
  input : Input
  timestamp_milliseconds : Nat
deriving DecidableEq, Repr

/-! ### Reducer / classifier (`convert_events_to_input`, `input.rs` 164-241) -/

/-- Rust `i32::abs_diff` (result is the `u32` absolute difference). -/
def abs_diff (a b : Int) : Nat := (a - b).natAbs

/-- The local `DownInput` struct of `convert_events_to_input`. -/
structure DownInput where
  x : Int
  y : Int
  time : Nat
deriving DecidableEq, Repr

/-- The mutable local state of the `for` loop of `convert_events_to_input`. -/
structure ConvertState where
  is_slot_0_active : Bool
  down : Option DownInput
  last_x : Int
  last_y : Int
  result : List InputWithTimestamp
deriving DecidableEq, Repr

/-- Initial loop state of `convert_events_to_input`. -/
def initConvertState : ConvertState :=
  { is_slot_0_active := true, down := none, last_x := 0, last_y := 0, result := [] }

/-- The panics the reducer's `u32` arithmetic can hit in a debug build:
an underflowing subtraction (`e.timestamp_milliseconds - first_time_stamp`
at line 191 or `relative_time_stamp - d.time` at line 205), or the
`abs_diff + abs_diff` distance addition at line 204 exceeding `u32::MAX`. -/
inductive ConvertPanic
  | subUnderflow
  | addOverflow
deriving DecidableEq, Repr

/-- One iteration of the `for e in inputs.iter()` loop of
`convert_events_to_input`.  The guards mirror the source order: the relative
timestamp subtraction (line 191), then — on a closing touch-up — the
distance addition (line 204) and the duration subtraction (line 205). -/
def convertStep (tap_threshold_distance tap_threshold_ms first_time_stamp : Nat)
    (st : ConvertState) (e : InputEventInfo) : Except ConvertPanic ConvertState :=
  if first_time_stamp ≤ e.timestamp_milliseconds then
    let relative_time_stamp := e.timestamp_milliseconds - first_time_stamp
    match e.event with
    | .absMtSlot slot => .ok { st with is_slot_0_active := slot = 0 }
    | .absMtPosX x =>
        if st.is_slot_0_active then .ok { st with last_x := x } else .ok st
    | .absMtPosY y =>
        if st.is_slot_0_active then .ok { st with last_y := y } else .ok st
    | .btnTouch t =>
        if st.is_slot_0_active then
          match t with
          | .up =>
              match st.down with
              | some d =>
                  let distance_moved := abs_diff d.x st.last_x + abs_diff d.y st.last_y
                  if distance_moved ≤ 4294967295 then
                    if d.time ≤ relative_time_stamp then
                      let down_dur_ms := relative_time_stamp - d.time
                      let emitted : InputWithTimestamp :=
                        if distance_moved > tap_threshold_distance ∨
                            down_dur_ms > tap_threshold_ms
                        then { timestamp_milliseconds := d.time,
                               input := .swipe { milliseconds := down_dur_ms,
                                                 x0 := d.x, x1 := st.last_x,
                                                 y0 := d.y, y1 := st.last_y } }
                        else { timestamp_milliseconds := d.time,
                               input := .tap { x := d.x, y := d.y } }
                      .ok { st with down := none, result := st.result ++ [emitted] }
                    else .error .subUnderflow
                  else .error .addOverflow
              | none => .ok st
          | .down =>
              .ok { st with down := some { x := st.last_x, y := st.last_y,
                                           time := relative_time_stamp } }
        else .ok st
    | .keyPower t =>
        if t = .down then
          .ok { st with result := st.result ++
            [{ timestamp_milliseconds := relative_time_stamp, input := .key .power }] }
        else .ok st
    | .absMtTrackingId _ => .ok st
  else .error .subUnderflow

/-- The `for` loop of `convert_events_to_input`, threading the state and
propagating the first panic. -/
def convertGo (tap_threshold_distance tap_threshold_ms first_time_stamp : Nat)
    (st : ConvertState) : List InputEventInfo → Except ConvertPanic ConvertState
  | [] => .ok st
  | e :: rest =>
      match convertStep tap_threshold_distance tap_threshold_ms first_time_stamp st e with
      | .ok st' =>
          convertGo tap_threshold_distance tap_threshold_ms first_time_stamp st' rest
      | .error p => .error p

/-- `convert_events_to_input` (`input.rs` 164-241).  An empty input yields an
empty action list; otherwise the first event establishes time zero and the
loop runs over all events (including the first). -/
def convert_events_to_input (inputs : List InputEventInfo)
    (tap_threshold_distance tap_threshold_ms : Nat) :
    Except ConvertPanic (List InputWithTimestamp) :=
  match inputs with
  | [] => .ok []
  | e0 :: _ =>
      match convertGo tap_threshold_distance tap_threshold_ms e0.timestamp_milliseconds
        initConvertState inputs with
      | .ok st => .ok st.result
      | .error p => .error p

/-- The guarded relative-timestamp computation
`e.timestamp_milliseconds - first_time_stamp` of `convert_events_to_input`. -/
def relTime (first_time_stamp : Nat) (e : InputEventInfo) : Option Nat :=
  if first_time_stamp ≤ e.timestamp_milliseconds then
    some (e.timestamp_milliseconds - first_time_stamp)
  else none

instance {ε α : Type} [DecidableEq ε] [DecidableEq α] : DecidableEq (Except ε α) :=
  fun a b =>
    match a, b with
    | .error e₁, .error e₂ => decidable_of_iff (e₁ = e₂) (by simp)
    | .ok a₁, .ok a₂ => decidable_of_iff (a₁ = a₂) (by simp)
    | .error _, .ok _ => isFalse (fun h => Except.noConfusion h)
    | .ok _, .error _ => isFalse (fun h => Except.noConfusion h)

/-- C1 (counterexample): in the sequence
position (10,10), touch-down at time 0, position (50,60), a second touch-down
at time 5, touch-up at time 6, the claim predicts the second down is dropped
and the up closes with the data captured at the first down, emitting
Tap (10,10) at relative time 0 (distance 90 and duration 6 are below the
thresholds 100 and 500).  The code instead overwrites the pending down, so it
emits Tap (50,60) at relative time 5. -/
theorem c1_counterexample :
    convert_events_to_input
      [⟨0, 0, .absMtPosX 10⟩, ⟨0, 0, .absMtPosY 10⟩, ⟨0, 0, .btnTouch .down⟩,
       ⟨5, 0, .absMtPosX 50⟩, ⟨5, 0, .absMtPosY 60⟩, ⟨5, 0, .btnTouch .down⟩,
       ⟨6, 0, .btnTouch .up⟩] 100 500
      = Except.ok [⟨.tap ⟨50, 60⟩, 5⟩] ∧
    ([⟨Input.tap ⟨50, 60⟩, 5⟩] : List InputWithTimestamp) ≠ [⟨Input.tap ⟨10, 10⟩, 0⟩] := by
  decide

/-- C1 (amended): a touch-down transition on the primary slot always stores a
fresh pending-down capturing the current position and relative timestamp,
overwriting any pending-down already present ("last down wins"); the action
emitted on the matching touch-up therefore uses the data captured at the most
recent down. -/
theorem c1_down_overwrites_pending
    (tap_threshold_distance tap_threshold_ms first_time_stamp : Nat)
    (st : ConvertState) (e : InputEventInfo)
    (hslot : st.is_slot_0_active = true)
    (hev : e.event = InputEvent.btnTouch TouchType.down)
    (hts : first_time_stamp ≤ e.timestamp_milliseconds) :
    convertStep tap_threshold_distance tap_threshold_ms first_time_stamp st e =
      .ok { st with down := some { x := st.last_x, y := st.last_y,
                                   time := e.timestamp_milliseconds - first_time_stamp } } := by
  obtain ⟨ts, nr, ev⟩ := e
  simp only [] at hev hts
  subst hev
  simp [convertStep, hts, hslot]

/-- C1 witness: the amended theorem applied at a concrete state that already
holds a pending down; the new down replaces it. -/
theorem c1_witness :
    (({ is_slot_0_active := true, down := some ⟨10, 10, 0⟩, last_x := 50, last_y := 60,
        result := [] } : ConvertState).is_slot_0_active = true) ∧
    convertStep 100 500 0
        { is_slot_0_active := true, down := some ⟨10, 10, 0⟩, last_x := 50, last_y := 60,
          result := [] }
        ⟨5, 0, .btnTouch .down⟩ =
      .ok { is_slot_0_active := true, down := some ⟨50, 60, 5⟩, last_x := 50, last_y := 60,
            result := [] } :=
  ⟨rfl, c1_down_overwrites_pending 100 500 0 _ _ rfl rfl (by decide)⟩

/-- C2: when a touch-up closes a pending down (in particular the `u32`
distance addition does not overflow, which is what lets the pair be closed
rather than panic), exactly one action is appended; it is a Tap when
Manhattan distance equals `tap_threshold_distance` and duration equals
`tap_threshold_ms`, and it is a Swipe if and only if the distance or the
duration strictly exceeds its threshold. -/
theorem c2_tap_swipe_boundary
    (tap_threshold_distance tap_threshold_ms first_time_stamp : Nat)
    (st : ConvertState) (d : DownInput) (e : InputEventInfo)
    (hslot : st.is_slot_0_active = true)
    (hdown : st.down = some d)
    (hev : e.event = InputEvent.btnTouch TouchType.up)
    (hts : first_time_stamp ≤ e.timestamp_milliseconds)
    (hov : abs_diff d.x st.last_x + abs_diff d.y st.last_y ≤ 4294967295)
    (hdur : d.time ≤ e.timestamp_milliseconds - first_time_stamp) :
    ∃ a : Input,
      convertStep tap_threshold_distance tap_threshold_ms first_time_stamp st e =
        .ok { st with down := none,
                      result := st.result ++ [⟨a, d.time⟩] } ∧
      (abs_diff d.x st.last_x + abs_diff d.y st.last_y = tap_threshold_distance ∧
         e.timestamp_milliseconds - first_time_stamp - d.time = tap_threshold_ms →
         a = Input.tap ⟨d.x, d.y⟩) ∧
      ((∃ s, a = Input.swipe s) ↔
        (tap_threshold_distance < abs_diff d.x st.last_x + abs_diff d.y st.last_y ∨
         tap_threshold_ms < e.timestamp_milliseconds - first_time_stamp - d.time)) := by
  obtain ⟨ts, nr, ev⟩ := e
  dsimp only at hev hts hdur ⊢
  subst hev
  by_cases hsw : tap_threshold_distance < abs_diff d.x st.last_x + abs_diff d.y st.last_y ∨
      tap_threshold_ms < ts - first_time_stamp - d.time
  · refine ⟨Input.swipe (Swipe.mk d.x st.last_x d.y st.last_y (ts - first_time_stamp - d.time)),
      ?_, ?_, ?_⟩
    · simp [convertStep, hts, hslot, hdown, hov, hdur, hsw]
    · intro hb
      exact absurd hsw (by omega)
    · exact ⟨fun _ => hsw, fun _ => ⟨_, rfl⟩⟩
  · refine ⟨Input.tap ⟨d.x, d.y⟩, ?_, fun _ => rfl, ?_⟩
    · simp [convertStep, hts, hslot, hdown, hov, hdur, hsw]
    · constructor
      · rintro ⟨s, hs⟩
        exact absurd hs (by simp)
      · intro h
        exact absurd h hsw

/-- C2 witness: boundary instance with distance exactly 100 and duration
exactly 500 at thresholds (100, 500): the emitted action is a Tap. -/
theorem c2_witness :
    (({ is_slot_0_active := true, down := some ⟨0, 0, 0⟩, last_x := 100, last_y := 0,
        result := [] } : ConvertState).down = some ⟨0, 0, 0⟩) ∧
    abs_diff 0 100 + abs_diff 0 0 ≤ 4294967295 ∧
    (0 : Nat) ≤ 500 ∧
    ∃ a : Input,
      convertStep 100 500 0
          { is_slot_0_active := true, down := some ⟨0, 0, 0⟩, last_x := 100, last_y := 0,
            result := [] }
          ⟨500, 0, .btnTouch .up⟩ =
        .ok { is_slot_0_active := true, down := none, last_x := 100, last_y := 0,
              result := [⟨a, 0⟩] } ∧
      (abs_diff 0 100 + abs_diff 0 0 = 100 ∧ (500 : Nat) - 0 - 0 = 500 →
        a = Input.tap ⟨0, 0⟩) ∧
      ((∃ s, a = Input.swipe s) ↔
        (100 < abs_diff 0 100 + abs_diff 0 0 ∨ (500 : Nat) < 500 - 0 - 0)) :=
  ⟨rfl, by decide, by decide,
    c2_tap_swipe_boundary 100 500 0 _ ⟨0, 0, 0⟩ ⟨500, 0, .btnTouch .up⟩
      rfl rfl rfl (by decide) (by decide) (by decide)⟩

/-- C9: slot isolation.  First conjunct: a position event arriving while the
primary slot is inactive leaves the whole reducer state (in particular
`last_x`/`last_y`) unchanged.  Second conjunct: the concrete sequence
[slot 0, x 10, y 10, down, slot 1, x 900, y 900, slot 0, up] at times
[0,0,0,1,1,2,2,3,3] yields the single action Tap (10,10), not a Swipe. -/
theorem c9_slot_isolation :
    (∀ (tap_threshold_distance tap_threshold_ms first_time_stamp : Nat)
       (st : ConvertState) (e : InputEventInfo) (v : Int),
       st.is_slot_0_active = false →
       (e.event = InputEvent.absMtPosX v ∨ e.event = InputEvent.absMtPosY v) →
       first_time_stamp ≤ e.timestamp_milliseconds →
       convertStep tap_threshold_distance tap_threshold_ms first_time_stamp st e = .ok st) ∧
    convert_events_to_input
      [⟨0, 0, .absMtSlot 0⟩, ⟨0, 0, .absMtPosX 10⟩, ⟨0, 0, .absMtPosY 10⟩,
       ⟨1, 0, .btnTouch .down⟩, ⟨1, 0, .absMtSlot 1⟩, ⟨2, 0, .absMtPosX 900⟩,
       ⟨2, 0, .absMtPosY 900⟩, ⟨3, 0, .absMtSlot 0⟩, ⟨3, 0, .btnTouch .up⟩] 100 500
      = Except.ok [⟨.tap ⟨10, 10⟩, 1⟩] := by
  constructor
  · intro dthr mthr first st e v hslot hev hts
    obtain ⟨ts, nr, ev⟩ := e
    simp only [] at hev hts
    rcases hev with hev | hev <;> subst hev <;> simp [convertStep, hts, hslot]
  · decide

/-- C9 witness: the general conjunct applied at a concrete inactive-slot state
and a concrete position event: the state is returned unchanged. -/
theorem c9_witness :
    (({ is_slot_0_active := false, down := none, last_x := 10, last_y := 10,
        result := [] } : ConvertState).is_slot_0_active = false) ∧
    convertStep 100 500 0
        { is_slot_0_active := false, down := none, last_x := 10, last_y := 10, result := [] }
        ⟨5, 0, .absMtPosX 900⟩ =
      .ok { is_slot_0_active := false, down := none, last_x := 10, last_y := 10,
            result := [] } :=
  ⟨rfl, c9_slot_isolation.1 100 500 0 _ _ 900 rfl (Or.inl rfl) (by decide)⟩

/-- C4 (counterexample): with non-decreasing input timestamps
[0,0,0,5,10], a power-key down between a touch-down and its matching touch-up
is emitted at relative time 5 while the Tap closed afterwards is emitted at
the down's relative time 0, so the output timestamps [5, 0] are not
non-decreasing. -/
theorem c4_counterexample :
    convert_events_to_input
      [⟨0, 0, .absMtPosX 10⟩, ⟨0, 0, .absMtPosY 10⟩, ⟨0, 0, .btnTouch .down⟩,
       ⟨5, 0, .keyPower .down⟩, ⟨10, 0, .btnTouch .up⟩] 100 500
      = Except.ok [⟨.key .power, 5⟩, ⟨.tap ⟨10, 10⟩, 0⟩] ∧
    List.Chain' (· ≤ ·)
      (([⟨0, 0, .absMtPosX 10⟩, ⟨0, 0, .absMtPosY 10⟩, ⟨0, 0, .btnTouch .down⟩,
         ⟨5, 0, .keyPower .down⟩,
         ⟨10, 0, .btnTouch .up⟩] : List InputEventInfo).map
          (fun e => e.timestamp_milliseconds)) ∧
    ¬ List.Chain' (· ≤ ·)
        (([⟨.key .power, 5⟩, ⟨.tap ⟨10, 10⟩, 0⟩] : List InputWithTimestamp).map
          (fun a => a.timestamp_milliseconds)) := by
  refine ⟨by decide, ?_, ?_⟩
  · simp [List.chain'_cons]
  · simp [List.chain'_cons]

/-- Stepping the loop once with a successful step continues with the new
state. -/
lemma convertGo_cons_ok {dthr mthr first : Nat} {st st₁ : ConvertState}
    {e : InputEventInfo} {rest : List InputEventInfo}
    (hstep : convertStep dthr mthr first st e = .ok st₁) :
    convertGo dthr mthr first st (e :: rest) = convertGo dthr mthr first st₁ rest := by
  rw [convertGo, hstep]

/-- Stepping the loop once with a panicking step propagates the panic. -/
lemma convertGo_cons_error {dthr mthr first : Nat} {st : ConvertState}
    {e : InputEventInfo} {rest : List InputEventInfo} {p : ConvertPanic}
    (hstep : convertStep dthr mthr first st e = .error p) :
    convertGo dthr mthr first st (e :: rest) = .error p := by
  rw [convertGo, hstep]

/-- Invariant induction over the reducer loop: on a suffix of events whose
timestamps are pairwise non-decreasing and at least `rb + first`, starting
from a state whose pending down (if any) opened at relative time at most `rb`
and whose emitted timestamps all stem from events of `inputs0`, the loop
never hits a subtraction underflow: it either completes — with every emitted
timestamp of the form `e.timestamp - first` for some event `e` of `inputs0` —
or panics on the u32 distance-sum overflow. -/
lemma convertGo_sorted_total (dthr mthr first : Nat) (inputs0 : List InputEventInfo)
    (events : List InputEventInfo) :
    ∀ (st : ConvertState) (rb : Nat),
    (∀ e ∈ events, rb + first ≤ e.timestamp_milliseconds) →
    List.Pairwise (· ≤ ·) (events.map (fun e => e.timestamp_milliseconds)) →
    (∀ e ∈ events, e ∈ inputs0) →
    (∀ d, st.down = some d → d.time ≤ rb ∧
        ∃ e ∈ inputs0, d.time + first = e.timestamp_milliseconds) →
    (∀ a ∈ st.result, ∃ e ∈ inputs0,
        a.timestamp_milliseconds + first = e.timestamp_milliseconds) →
    (∃ st', convertGo dthr mthr first st events = .ok st' ∧
      (∀ a ∈ st'.result, ∃ e ∈ inputs0,
          a.timestamp_milliseconds + first = e.timestamp_milliseconds)) ∨
    convertGo dthr mthr first st events = .error ConvertPanic.addOverflow := by
  induction events with
  | nil =>
      intro st rb _ _ _ _ hres
      exact Or.inl ⟨st, rfl, hres⟩
  | cons e rest ih =>
      intro st rb hlb hpair hsub hdown hres
      obtain ⟨ts, nr, ev⟩ := e
      have h0 : rb + first ≤ ts := by
        simpa using hlb _ (List.mem_cons_self _ _)
      have hts : first ≤ ts := by omega
      have hrb : rb ≤ ts - first := by omega
      have hein : (⟨ts, nr, ev⟩ : InputEventInfo) ∈ inputs0 :=
        hsub _ (List.mem_cons_self _ _)
      have hpc : (∀ a ∈ rest, ts ≤ a.timestamp_milliseconds) ∧
          List.Pairwise (· ≤ ·) (rest.map (fun e => e.timestamp_milliseconds)) := by
        simpa using hpair
      have hlb' : ∀ e' ∈ rest, (ts - first) + first ≤ e'.timestamp_milliseconds := by
        intro e' he'
        have := hpc.1 e' he'
        omega
      have hsub' : ∀ e' ∈ rest, e' ∈ inputs0 :=
        fun e' he' => hsub _ (List.mem_cons_of_mem _ he')
      -- helper to finish from a computed step and preserved invariants
      have finish : ∀ (st₁ : ConvertState),
          convertStep dthr mthr first st ⟨ts, nr, ev⟩ = .ok st₁ →
          (∀ d, st₁.down = some d → d.time ≤ ts - first ∧
              ∃ e ∈ inputs0, d.time + first = e.timestamp_milliseconds) →
          (∀ a ∈ st₁.result, ∃ e ∈ inputs0,
              a.timestamp_milliseconds + first = e.timestamp_milliseconds) →
          (∃ st', convertGo dthr mthr first st (⟨ts, nr, ev⟩ :: rest) = .ok st' ∧
            (∀ a ∈ st'.result, ∃ e ∈ inputs0,
                a.timestamp_milliseconds + first = e.timestamp_milliseconds)) ∨
          convertGo dthr mthr first st (⟨ts, nr, ev⟩ :: rest) =
            .error ConvertPanic.addOverflow := by
        intro st₁ hstep hdown₁ hres₁
        rcases ih st₁ (ts - first) hlb' hpc.2 hsub' hdown₁ hres₁ with ⟨st', hgo, hP⟩ | hgo
        · exact Or.inl ⟨st', by rw [convertGo_cons_ok hstep]; exact hgo, hP⟩
        · exact Or.inr (by rw [convertGo_cons_ok hstep]; exact hgo)
      have hdown_up : ∀ d, st.down = some d → d.time ≤ ts - first :=
        fun d hd => le_trans (hdown d hd).1 hrb
      cases ev with
      | absMtSlot v =>
          refine finish { st with is_slot_0_active := decide (v = 0) } ?_ ?_ hres
          · simp [convertStep, hts]
          · exact fun d hd => ⟨hdown_up d hd, (hdown d hd).2⟩
      | absMtTrackingId v =>
          refine finish st ?_ (fun d hd => ⟨hdown_up d hd, (hdown d hd).2⟩) hres
          simp [convertStep, hts]
      | absMtPosX v =>
          cases hsl : st.is_slot_0_active with
          | false =>
              refine finish st ?_ (fun d hd => ⟨hdown_up d hd, (hdown d hd).2⟩) hres
              simp [convertStep, hts, hsl]
          | true =>
              refine finish { st with last_x := v } ?_
                (fun d hd => ⟨hdown_up d hd, (hdown d hd).2⟩) hres
              simp [convertStep, hts, hsl]
      | absMtPosY v =>
          cases hsl : st.is_slot_0_active with
          | false =>
              refine finish st ?_ (fun d hd => ⟨hdown_up d hd, (hdown d hd).2⟩) hres
              simp [convertStep, hts, hsl]
          | true =>
              refine finish { st with last_y := v } ?_
                (fun d hd => ⟨hdown_up d hd, (hdown d hd).2⟩) hres
              simp [convertStep, hts, hsl]
      | keyPower t =>
          cases t with
          | up =>
              refine finish st ?_ (fun d hd => ⟨hdown_up d hd, (hdown d hd).2⟩) hres
              simp [convertStep, hts]
          | down =>
              refine finish { st with result := st.result ++
                  [⟨.key .power, ts - first⟩] } ?_
                (fun d hd => ⟨hdown_up d hd, (hdown d hd).2⟩) ?_
              · simp [convertStep, hts]
              · intro a ha
                rcases List.mem_append.mp ha with ha | ha
                · exact hres a ha
                · simp only [List.mem_singleton] at ha
                  subst ha
                  exact ⟨⟨ts, nr, .keyPower .down⟩, hein, by simp; omega⟩
      | btnTouch t =>
          cases hsl : st.is_slot_0_active with
          | false =>
              refine finish st ?_ (fun d hd => ⟨hdown_up d hd, (hdown d hd).2⟩) hres
              simp [convertStep, hts, hsl]
          | true =>
              cases t with
              | down =>
                  refine finish { st with down := some ⟨st.last_x, st.last_y, ts - first⟩ }
                    ?_ ?_ hres
                  · simp [convertStep, hts, hsl]
                  · intro d hd
                    simp only [Option.some_inj] at hd
                    subst hd
                    exact ⟨le_rfl, ⟨ts, nr, .btnTouch .down⟩, hein, by simp; omega⟩
              | up =>
                  cases hd : st.down with
                  | none =>
                      refine finish st ?_ (fun d hdd => ⟨hdown_up d hdd, (hdown d hdd).2⟩) hres
                      simp [convertStep, hts, hsl, hd]
                  | some d =>
                      have hdt : d.time ≤ ts - first := hdown_up d hd
                      have hdprov := (hdown d hd).2
                      by_cases hov : abs_diff d.x st.last_x + abs_diff d.y st.last_y ≤
                          4294967295
                      · have hresE : ∀ E : InputWithTimestamp,
                            E.timestamp_milliseconds = d.time →
                            ∀ a ∈ st.result ++ [E], ∃ e ∈ inputs0,
                              a.timestamp_milliseconds + first = e.timestamp_milliseconds := by
                          intro E hE a ha
                          rcases List.mem_append.mp ha with ha | ha
                          · exact hres a ha
                          · simp only [List.mem_singleton] at ha
                            subst ha
                            rw [hE]
                            exact hdprov
                        by_cases hc : dthr < abs_diff d.x st.last_x + abs_diff d.y st.last_y ∨
                            mthr < ts - first - d.time
                        · refine finish { st with down := none, result := st.result ++
                              [⟨.swipe ⟨d.x, st.last_x, d.y, st.last_y, ts - first - d.time⟩,
                                d.time⟩] } ?_ (by simp) (hresE _ rfl)
                          simp [convertStep, hts, hsl, hd, hov, hdt, hc]
                        · refine finish { st with down := none, result := st.result ++
                              [⟨.tap ⟨d.x, d.y⟩, d.time⟩] } ?_ (by simp) (hresE _ rfl)
                          simp [convertStep, hts, hsl, hd, hov, hdt, hc]
                      · refine Or.inr (convertGo_cons_error ?_)
                        simp [convertStep, hts, hsl, hd, hov]

/-- C7 (counterexample): on an input whose second timestamp (3) is below the
first (5) the guarded u32 subtraction `e.timestamp - first_timestamp`
underflows, so the subtraction error branch of the embedding is reached and
`convert_events_to_input` panics; the claim asserted this branch is
unreachable for every input sequence. -/
theorem c7_counterexample :
    relTime 5 ⟨3, 0, .absMtSlot 0⟩ = none ∧
    convert_events_to_input [⟨5, 0, .absMtSlot 0⟩, ⟨3, 0, .absMtSlot 0⟩] 100 500 =
      Except.error ConvertPanic.subUnderflow := by
  decide

/-- Appending an upper bound keeps a `≤`-chain a chain. -/
lemma chain'_append_singleton {l : List Nat} {x : Nat}
    (hl : List.Chain' (· ≤ ·) l) (hx : ∀ t ∈ l, t ≤ x) :
    List.Chain' (· ≤ ·) (l ++ [x]) := by
  refine List.Chain'.append hl (List.chain'_singleton x) ?_
  intro a ha y hy
  simp only [List.head?_cons, Option.mem_def, Option.some_inj] at hy
  subst hy
  obtain ⟨h, rfl⟩ := List.mem_getLast?_eq_getLast ha
  exact hx _ (List.getLast_mem h)

/-- Invariant induction over the reducer loop for output monotonicity: with
pairwise non-decreasing event timestamps bounded below by `rb + first`, no
power-key-down events, a pending down no newer than `rb` and no older than
every emitted timestamp, and an already sorted result bounded by `rb`, the
final result is sorted. -/
lemma convertGo_result_sorted (dthr mthr first : Nat) (events : List InputEventInfo) :
    ∀ (st : ConvertState) (rb : Nat) (st' : ConvertState),
    (∀ e ∈ events, rb + first ≤ e.timestamp_milliseconds) →
    List.Pairwise (· ≤ ·) (events.map (fun e => e.timestamp_milliseconds)) →
    (∀ e ∈ events, e.event ≠ InputEvent.keyPower TouchType.down) →
    (∀ d, st.down = some d → d.time ≤ rb ∧
        ∀ a ∈ st.result, a.timestamp_milliseconds ≤ d.time) →
    (∀ a ∈ st.result, a.timestamp_milliseconds ≤ rb) →
    List.Chain' (· ≤ ·) (st.result.map (fun a => a.timestamp_milliseconds)) →
    convertGo dthr mthr first st events = .ok st' →
    List.Chain' (· ≤ ·) (st'.result.map (fun a => a.timestamp_milliseconds)) := by
  induction events with
  | nil =>
      intro st rb st' _ _ _ _ _ hchain hgo
      obtain rfl : st = st' := by simpa [convertGo] using hgo
      exact hchain
  | cons e rest ih =>
      intro st rb st' hlb hpair hnokey hdown hub hchain hgo
      obtain ⟨ts, nr, ev⟩ := e
      have h0 : rb + first ≤ ts := by
        simpa using hlb _ (List.mem_cons_self _ _)
      have hts : first ≤ ts := by omega
      have hrb : rb ≤ ts - first := by omega
      have hpc : (∀ a ∈ rest, ts ≤ a.timestamp_milliseconds) ∧
          List.Pairwise (· ≤ ·) (rest.map (fun e => e.timestamp_milliseconds)) := by
        simpa using hpair
      have hlb' : ∀ e' ∈ rest, (ts - first) + first ≤ e'.timestamp_milliseconds := by
        intro e' he'
        have := hpc.1 e' he'
        omega
      have hnokey' : ∀ e' ∈ rest, e'.event ≠ InputEvent.keyPower TouchType.down :=
        fun e' he' => hnokey _ (List.mem_cons_of_mem _ he')
      have hub' : ∀ a ∈ st.result, a.timestamp_milliseconds ≤ ts - first :=
        fun a ha => le_trans (hub a ha) hrb
      -- helper to finish from a computed step with unchanged result and down
      have finish_same : ∀ (st₁ : ConvertState),
          convertStep dthr mthr first st ⟨ts, nr, ev⟩ = .ok st₁ →
          st₁.down = st.down → st₁.result = st.result →
          List.Chain' (· ≤ ·) (st'.result.map (fun a => a.timestamp_milliseconds)) := by
        intro st₁ hstep hd1 hr1
        rw [convertGo_cons_ok hstep] at hgo
        refine ih st₁ (ts - first) st' hlb' hpc.2 hnokey' ?_ ?_ ?_ hgo
        · intro d hd
          rw [hd1] at hd
          exact ⟨le_trans (hdown d hd).1 hrb, by rw [hr1]; exact (hdown d hd).2⟩
        · rw [hr1]; exact hub'
        · rw [hr1]; exact hchain
      cases ev with
      | absMtSlot v =>
          exact finish_same { st with is_slot_0_active := decide (v = 0) }
            (by simp [convertStep, hts]) rfl rfl
      | absMtTrackingId v => exact finish_same st (by simp [convertStep, hts]) rfl rfl
      | absMtPosX v =>
          cases hsl : st.is_slot_0_active with
          | false => exact finish_same st (by simp [convertStep, hts, hsl]) rfl rfl
          | true =>
              exact finish_same { st with last_x := v }
                (by simp [convertStep, hts, hsl]) rfl rfl
      | absMtPosY v =>
          cases hsl : st.is_slot_0_active with
          | false => exact finish_same st (by simp [convertStep, hts, hsl]) rfl rfl
          | true =>
              exact finish_same { st with last_y := v }
                (by simp [convertStep, hts, hsl]) rfl rfl
      | keyPower t =>
          cases t with
          | down => exact absurd rfl (hnokey _ (List.mem_cons_self _ _))
          | up => exact finish_same st (by simp [convertStep, hts]) rfl rfl
      | btnTouch t =>
          cases hsl : st.is_slot_0_active with
          | false => exact finish_same st (by simp [convertStep, hts, hsl]) rfl rfl
          | true =>
              cases t with
              | down =>
                  have hstep : convertStep dthr mthr first st ⟨ts, nr, .btnTouch .down⟩ =
                      .ok { st with down := some ⟨st.last_x, st.last_y, ts - first⟩ } := by
                    simp [convertStep, hts, hsl]
                  rw [convertGo_cons_ok hstep] at hgo
                  refine ih { st with down := some ⟨st.last_x, st.last_y, ts - first⟩ }
                    (ts - first) st' hlb' hpc.2 hnokey' ?_ hub' hchain hgo
                  intro d hd
                  have hd' : (⟨st.last_x, st.last_y, ts - first⟩ : DownInput) = d := by
                    simpa using hd
                  subst hd'
                  exact ⟨le_rfl, hub'⟩
              | up =>
                  cases hd : st.down with
                  | none => exact finish_same st (by simp [convertStep, hts, hsl, hd]) rfl rfl
                  | some d =>
                      obtain ⟨hdt, hdle⟩ := hdown d hd
                      have hdt' : d.time ≤ ts - first := le_trans hdt hrb
                      -- the step appends one action timestamped at the down time
                      have key : ∀ E : InputWithTimestamp,
                          E.timestamp_milliseconds = d.time →
                          convertStep dthr mthr first st ⟨ts, nr, .btnTouch .up⟩ =
                            .ok { st with down := none, result := st.result ++ [E] } →
                          List.Chain' (· ≤ ·)
                            (st'.result.map (fun a => a.timestamp_milliseconds)) := by
                        intro E hE hstep
                        rw [convertGo_cons_ok hstep] at hgo
                        refine ih { st with down := none, result := st.result ++ [E] }
                          (ts - first) st' hlb' hpc.2 hnokey' (by simp) ?_ ?_ hgo
                        · intro a ha
                          rcases List.mem_append.mp ha with ha | ha
                          · exact hub' a ha
                          · simp only [List.mem_singleton] at ha
                            subst ha
                            rw [hE]
                            exact le_trans hdt hrb
                        · show List.Chain' (· ≤ ·)
                            ((st.result ++ [E]).map (fun a => a.timestamp_milliseconds))
                          simp only [List.map_append, List.map_cons, List.map_nil, hE]
                          exact chain'_append_singleton hchain
                            (by simpa using fun a ha => hdle a ha)
                      by_cases hov :
                          abs_diff d.x st.last_x + abs_diff d.y st.last_y ≤ 4294967295
                      · by_cases hc :
                            dthr < abs_diff d.x st.last_x + abs_diff d.y st.last_y ∨
                            mthr < ts - first - d.time
                        · exact key ⟨.swipe ⟨d.x, st.last_x, d.y, st.last_y,
                              ts - first - d.time⟩, d.time⟩ rfl
                            (by simp [convertStep, hts, hsl, hd, hov, hdt', hc])
                        · exact key ⟨.tap ⟨d.x, d.y⟩, d.time⟩ rfl
                            (by simp [convertStep, hts, hsl, hd, hov, hdt', hc])
                      · have hstep : convertStep dthr mthr first st ⟨ts, nr, .btnTouch .up⟩
                            = .error ConvertPanic.addOverflow := by
                          simp [convertStep, hts, hsl, hd, hov]
                        rw [convertGo_cons_error hstep] at hgo
                        exact Except.noConfusion hgo

/-- C4 (amended): if the input timestamps are non-decreasing and the input
contains no power-key-down event, then the emitted action sequence has
non-decreasing timestamps.  (The restriction is forced: a power-key down
between a touch-down and its matching touch-up is emitted at its own relative
time while the later tap/swipe is emitted at the down's earlier relative
time, see the counterexample.) -/
theorem c4_output_monotone (inputs : List InputEventInfo)
    (tap_threshold_distance tap_threshold_ms : Nat) (out : List InputWithTimestamp)
    (hsorted : List.Chain' (· ≤ ·) (inputs.map (fun e => e.timestamp_milliseconds)))
    (hnokey : ∀ e ∈ inputs, e.event ≠ InputEvent.keyPower TouchType.down)
    (hconv : convert_events_to_input inputs tap_threshold_distance tap_threshold_ms
      = Except.ok out) :
    List.Chain' (· ≤ ·) (out.map (fun a => a.timestamp_milliseconds)) := by
  match inputs, hconv with
  | [], hconv =>
      obtain rfl : ([] : List InputWithTimestamp) = out := by
        simpa [convert_events_to_input] using hconv
      simp
  | e0 :: rest, hconv =>
      have hpair : List.Pairwise (· ≤ ·)
          ((e0 :: rest).map (fun e => e.timestamp_milliseconds)) :=
        List.chain'_iff_pairwise.mp hsorted
      have hmem : (∀ a ∈ rest, e0.timestamp_milliseconds ≤ a.timestamp_milliseconds) ∧
          List.Pairwise (· ≤ ·) (rest.map (fun e => e.timestamp_milliseconds)) := by
        simpa using hpair
      have hlb : ∀ e ∈ e0 :: rest,
          0 + e0.timestamp_milliseconds ≤ e.timestamp_milliseconds := by
        intro e he
        rcases List.mem_cons.mp he with he | he
        · subst he; omega
        · have := hmem.1 e he
          omega
      obtain ⟨st', hgo, hout⟩ : ∃ st',
          convertGo tap_threshold_distance tap_threshold_ms e0.timestamp_milliseconds
            initConvertState (e0 :: rest) = .ok st' ∧ st'.result = out := by
        have hconv' : (match convertGo tap_threshold_distance tap_threshold_ms
            e0.timestamp_milliseconds initConvertState (e0 :: rest) with
          | .ok st => Except.ok st.result
          | .error p => Except.error p) = Except.ok out := hconv
        rcases hgo : convertGo tap_threshold_distance tap_threshold_ms
            e0.timestamp_milliseconds initConvertState (e0 :: rest) with p | st'
        · rw [hgo] at hconv'
          exact absurd hconv' (by simp)
        · rw [hgo] at hconv'
          exact ⟨st', rfl, by simpa using hconv'⟩
      rw [← hout]
      exact convertGo_result_sorted tap_threshold_distance tap_threshold_ms
        e0.timestamp_milliseconds (e0 :: rest) initConvertState 0 st'
        hlb hpair hnokey (by simp [initConvertState]) (by simp [initConvertState])
        (by simp [initConvertState]) hgo

/-- C4 witness: the amended theorem applied to a concrete key-free sorted
sequence producing two taps at relative times 0 and 8. -/
theorem c4_witness :
    List.Chain' (· ≤ ·)
      (([⟨0, 0, .absMtPosX 10⟩, ⟨0, 0, .absMtPosY 10⟩, ⟨0, 0, .btnTouch .down⟩,
         ⟨5, 0, .btnTouch .up⟩, ⟨8, 0, .btnTouch .down⟩, ⟨9, 0, .btnTouch .up⟩] :
        List InputEventInfo).map (fun e => e.timestamp_milliseconds)) ∧
    convert_events_to_input
      [⟨0, 0, .absMtPosX 10⟩, ⟨0, 0, .absMtPosY 10⟩, ⟨0, 0, .btnTouch .down⟩,
       ⟨5, 0, .btnTouch .up⟩, ⟨8, 0, .btnTouch .down⟩, ⟨9, 0, .btnTouch .up⟩] 100 500
      = Except.ok [⟨.tap ⟨10, 10⟩, 0⟩, ⟨.tap ⟨10, 10⟩, 8⟩] ∧
    List.Chain' (· ≤ ·)
      (([⟨.tap ⟨10, 10⟩, 0⟩, ⟨.tap ⟨10, 10⟩, 8⟩] : List InputWithTimestamp).map
        (fun a => a.timestamp_milliseconds)) :=
  ⟨by simp [List.chain'_cons], by decide,
   c4_output_monotone
     [⟨0, 0, .absMtPosX 10⟩, ⟨0, 0, .absMtPosY 10⟩, ⟨0, 0, .btnTouch .down⟩,
      ⟨5, 0, .btnTouch .up⟩, ⟨8, 0, .btnTouch .down⟩, ⟨9, 0, .btnTouch .up⟩] 100 500
     [⟨.tap ⟨10, 10⟩, 0⟩, ⟨.tap ⟨10, 10⟩, 8⟩] (by simp [List.chain'_cons]) (by decide)
     (by decide)⟩

/-- C7 (amended): for a non-empty input sequence with non-decreasing
timestamps, the first event establishes time zero (its own relative timestamp
is 0), and none of the guarded u32 subtractions underflows: the reduction
never reaches the subtraction error branch — it either completes, or panics
only on the u32 distance-sum addition overflowing at extreme coordinates —
and whenever it completes, every emitted action's timestamp is the absolute
timestamp of some input event minus the first event's absolute timestamp. -/
theorem c7_reltime_welldefined (e0 : InputEventInfo) (rest : List InputEventInfo)
    (tap_threshold_distance tap_threshold_ms : Nat)
    (hsorted : List.Chain' (· ≤ ·)
      ((e0 :: rest).map (fun e => e.timestamp_milliseconds))) :
    relTime e0.timestamp_milliseconds e0 = some 0 ∧
    convert_events_to_input (e0 :: rest) tap_threshold_distance tap_threshold_ms ≠
      Except.error ConvertPanic.subUnderflow ∧
    ∀ out, convert_events_to_input (e0 :: rest) tap_threshold_distance tap_threshold_ms
        = Except.ok out →
      ∀ a ∈ out, ∃ e ∈ e0 :: rest,
        a.timestamp_milliseconds + e0.timestamp_milliseconds = e.timestamp_milliseconds := by
  have hpair : List.Pairwise (· ≤ ·)
      ((e0 :: rest).map (fun e => e.timestamp_milliseconds)) :=
    List.chain'_iff_pairwise.mp hsorted
  have hmem : (∀ a ∈ rest, e0.timestamp_milliseconds ≤ a.timestamp_milliseconds) ∧
      List.Pairwise (· ≤ ·) (rest.map (fun e => e.timestamp_milliseconds)) := by
    simpa using hpair
  have hlb : ∀ e ∈ e0 :: rest, 0 + e0.timestamp_milliseconds ≤ e.timestamp_milliseconds := by
    intro e he
    rcases List.mem_cons.mp he with he | he
    · subst he; omega
    · have := hmem.1 e he
      omega
  have hconv_ok : ∀ st' : ConvertState,
      convertGo tap_threshold_distance tap_threshold_ms e0.timestamp_milliseconds
        initConvertState (e0 :: rest) = .ok st' →
      convert_events_to_input (e0 :: rest) tap_threshold_distance tap_threshold_ms =
        .ok st'.result := by
    intro st' hgo
    show (match convertGo tap_threshold_distance tap_threshold_ms e0.timestamp_milliseconds
        initConvertState (e0 :: rest) with
      | .ok st => Except.ok st.result
      | .error p => Except.error p) = .ok st'.result
    rw [hgo]
  have hconv_err : ∀ p : ConvertPanic,
      convertGo tap_threshold_distance tap_threshold_ms e0.timestamp_milliseconds
        initConvertState (e0 :: rest) = .error p →
      convert_events_to_input (e0 :: rest) tap_threshold_distance tap_threshold_ms =
        .error p := by
    intro p hgo
    show (match convertGo tap_threshold_distance tap_threshold_ms e0.timestamp_milliseconds
        initConvertState (e0 :: rest) with
      | .ok st => Except.ok st.result
      | .error p => Except.error p) = .error p
    rw [hgo]
  have hdis := convertGo_sorted_total tap_threshold_distance tap_threshold_ms
    e0.timestamp_milliseconds (e0 :: rest) (e0 :: rest) initConvertState 0
    hlb hpair (fun e he => he) (by simp [initConvertState]) (by simp [initConvertState])
  refine ⟨by simp [relTime], ?_, ?_⟩
  · rcases hdis with ⟨st', hgo, _⟩ | hgo
    · rw [hconv_ok st' hgo]
      intro h
      exact Except.noConfusion h
    · rw [hconv_err _ hgo]
      intro h
      simp at h
  · intro out hout a ha
    rcases hdis with ⟨st', hgo, hP⟩ | hgo
    · rw [hconv_ok st' hgo] at hout
      obtain rfl : st'.result = out := by simpa using hout
      exact hP a ha
    · rw [hconv_err _ hgo] at hout
      exact Except.noConfusion hout

/-! ### Recording format codec (`input.rs` 15-162 and 252-281)

Strings are embedded as `List Char`.  `trimChars`, `splitOnceChar` and
`splitWsChars` model `str::trim`, `str::split_once(' ')` and
`str::split_ascii_whitespace` (restricted to the whitespace characters that
occur in this format); `parseU32` / `parseI32` model `u32::from_str` /
`i32::from_str` (optional sign, decimal digits, range check); `digitChar`,
`natToCharsAux`, `natToChars` and `intToChars` model the decimal `Display` of
`u32` / `i32`; `padNum` / `padStr` model the `{:N}` minimum-width format
(numbers right-aligned, strings left-aligned). -/

def isWsChar (c : Char) : Bool :=
  c = ' ' || c = '\t' || c = '\n' || c = '\r'

def trimChars (s : List Char) : List Char :=
  ((s.dropWhile isWsChar).reverse.dropWhile isWsChar).reverse

def splitOnceChar (sep : Char) : List Char → Option (List Char × List Char)
  | [] => none
  | c :: rest =>
      if c = sep then some ([], rest)
      else (splitOnceChar sep rest).map (fun p => (c :: p.1, p.2))

def splitWsAux : List Char → List Char → List (List Char)
  | [], acc => if acc.isEmpty then [] else [acc.reverse]
  | c :: rest, acc =>
      if isWsChar c then
        if acc.isEmpty then splitWsAux rest []
        else acc.reverse :: splitWsAux rest []
      else splitWsAux rest (c :: acc)

def splitWsChars (s : List Char) : List (List Char) := splitWsAux s []

def digitVal (c : Char) : Option Nat :=
  if '0' ≤ c ∧ c ≤ '9' then some (c.toNat - '0'.toNat) else none

def parseDigitsAcc : List Char → Nat → Option Nat
  | [], acc => some acc
  | c :: r, acc =>
      match digitVal c with
      | some d => parseDigitsAcc r (acc * 10 + d)
      | none => none

def parseDigits (l : List Char) : Option Nat :=
  if l.isEmpty then none else parseDigitsAcc l 0

/-- `u32::from_str`: optional leading '+', decimal digits, value below 2^32. -/
def parseU32 (s : List Char) : Option Nat :=
  match s with
  | [] => none
  | c :: r =>
      let t := if c = '+' then r else c :: r
      (parseDigits t).bind (fun n => if n < 4294967296 then some n else none)

/-- `i32::from_str`: optional sign, decimal digits, value in the i32 range. -/
def parseI32 (s : List Char) : Option Int :=
  match s with
  | [] => none
  | c :: r =>
      if c = '-' then
        (parseDigits r).bind (fun n =>
          if n ≤ 2147483648 then some (-(n : Int)) else none)
      else if c = '+' then
        (parseDigits r).bind (fun n =>
          if n < 2147483648 then some ((n : Int)) else none)
      else
        (parseDigits (c :: r)).bind (fun n =>
          if n < 2147483648 then some ((n : Int)) else none)

def digitChar : Nat → Char
  | 0 => '0' | 1 => '1' | 2 => '2' | 3 => '3' | 4 => '4'
  | 5 => '5' | 6 => '6' | 7 => '7' | 8 => '8' | 9 => '9'
  | _ => '*'

/-- Fuel-driven most-significant-first decimal rendering (fuel `n + 1` is
always sufficient). -/
def natToCharsAux : Nat → Nat → List Char → List Char
  | 0, _, acc => acc
  | fuel + 1, n, acc =>
      if n = 0 then acc
      else natToCharsAux fuel (n / 10) (digitChar (n % 10) :: acc)

/-- Decimal `Display` of an unsigned integer. -/
def natToChars (n : Nat) : List Char :=
  if n = 0 then ['0'] else natToCharsAux (n + 1) n []

/-- Decimal `Display` of a signed integer. -/
def intToChars (i : Int) : List Char :=
  if i < 0 then '-' :: natToChars i.natAbs else natToChars i.natAbs

/-- `{:w}` for a number: right-aligned to minimum width `w`. -/
def padNum (w : Nat) (s : List Char) : List Char :=
  List.replicate (w - s.length) ' ' ++ s

/-- `{:w}` for a string: left-aligned to minimum width `w`. -/
def padStr (w : Nat) (s : List Char) : List Char :=
  s ++ List.replicate (w - s.length) ' '

def keyChars : Key → List Char
  | .power => "KEYCODE_POWER".toList
  | .back => "KEYCODE_BACK".toList
  | .home => "KEYCODE_HOME".toList
  | .menu => "KEYCODE_MENU".toList

/-- `Display` of `Tap`: `write!(f, "{:4} {:4}", self.x, self.y)`. -/
def displayTap (t : Tap) : List Char :=
  padNum 4 (intToChars t.x) ++ ' ' :: padNum 4 (intToChars t.y)

/-- `Display` of `Swipe`:
`write!(f, "{:4} {:4} {:4} {:4} {:4}", x[0], y[0], x[1], y[1], ms)`. -/
def displaySwipe (s : Swipe) : List Char :=
  padNum 4 (intToChars s.x0) ++ ' ' :: padNum 4 (intToChars s.y0) ++ ' ' ::
  padNum 4 (intToChars s.x1) ++ ' ' :: padNum 4 (intToChars s.y1) ++ ' ' ::
  padNum 4 (natToChars s.milliseconds)

/-- `Display` of `Input`: `write!(f, "{:6} {}", kind, payload)`. -/
def displayInput : Input → List Char
  | .tap t => padStr 6 "tap".toList ++ ' ' :: displayTap t
  | .swipe s => padStr 6 "swipe".toList ++ ' ' :: displaySwipe s
  | .key k => padStr 6 "keyevent".toList ++ ' ' :: keyChars k

/-- `Display` of `InputWithTimestamp`: `write!(f, "{:6} {}", ts, input)`. -/
def displayInputWithTimestamp (i : InputWithTimestamp) : List Char :=
  padNum 6 (natToChars i.timestamp_milliseconds) ++ ' ' :: displayInput i.input

/-- `serialize_inputs_fmt`: one `writeln!` per action. -/
def serialize_inputs_fmt : List InputWithTimestamp → List Char
  | [] => []
  | i :: rest => displayInputWithTimestamp i ++ '\n' :: serialize_inputs_fmt rest

/-- `Key::from_str`. -/
def parseKey (s : List Char) : Option Key :=
  let t := trimChars s
  if t = "KEYCODE_POWER".toList then some .power
  else if t = "KEYCODE_BACK".toList then some .back
  else if t = "KEYCODE_HOME".toList then some .home
  else if t = "KEYCODE_MENU".toList then some .menu
  else none

/-- `Tap::from_str`. -/
def parseTap (s : List Char) : Option Tap :=
  (splitOnceChar ' ' (trimChars s)).bind (fun p =>
    (parseI32 (trimChars p.1)).bind (fun x =>
      (parseI32 (trimChars p.2)).map (fun y => ⟨x, y⟩)))

/-- `Swipe::from_str`: five whitespace-separated fields, extra tokens
ignored (the Rust iterator is never checked for exhaustion). -/
def parseSwipe (s : List Char) : Option Swipe :=
  match splitWsChars (trimChars s) with
  | x0 :: y0 :: x1 :: y1 :: ms :: _ =>
      (parseI32 x0).bind (fun a =>
        (parseI32 y0).bind (fun b =>
          (parseI32 x1).bind (fun c =>
            (parseI32 y1).bind (fun d =>
              (parseU32 ms).map (fun m => ⟨a, c, b, d, m⟩)))))
  | _ => none

/-- `Input::from_str`. -/
def parseInput (s : List Char) : Option Input :=
  (splitOnceChar ' ' (trimChars s)).bind (fun p =>
    if trimChars p.1 = "tap".toList then (parseTap p.2).map .tap
    else if trimChars p.1 = "swipe".toList then (parseSwipe p.2).map .swipe
    else if trimChars p.1 = "keyevent".toList then (parseKey p.2).map .key
    else none)

/-- `InputWithTimestamp::from_str`. -/
def parseInputWithTimestamp (s : List Char) : Option InputWithTimestamp :=
  (splitOnceChar ' ' (trimChars s)).bind (fun p =>
    (parseU32 p.1).bind (fun ts =>
      (parseInput (trimChars p.2)).map (fun inp => ⟨inp, ts⟩)))

/-- The `read_line` loop of `deser_inputs_fmt`: split the text into the line
buffers successive `read_line` calls produce (each including its trailing
newline; a final newline-less fragment is one last buffer). -/
def readLinesAux : List Char → List Char → List (List Char)
  | [], acc => if acc.isEmpty then [] else [acc.reverse]
  | c :: r, acc =>
      if c = '\n' then (acc.reverse ++ ['\n']) :: readLinesAux r []
      else readLinesAux r (c :: acc)

def readLines (text : List Char) : List (List Char) := readLinesAux text []

/-- The parsing loop of `deser_inputs_fmt`: each line is parsed in order,
any failure (`?` on `linebuf.parse()`) aborts the whole read. -/
def deserLines : List (List Char) → Option (List InputWithTimestamp)
  | [] => some []
  | l :: rest =>
      (parseInputWithTimestamp l).bind (fun i =>
        (deserLines rest).map (fun is => i :: is))

/-- `deser_inputs_fmt` (`input.rs` 264-281). -/
def deser_inputs_fmt (text : List Char) : Option (List InputWithTimestamp) :=
  deserLines (readLines text)

/-- The `u32` range of the Rust `timestamp_milliseconds` / `milliseconds`
fields. -/
def u32InRange (n : Nat) : Prop := n < 4294967296

instance : (n : Nat) → Decidable (u32InRange n) := fun _ => Nat.decLt _ _

/-- The `i32` range of the Rust coordinate fields. -/
def i32InRange (i : Int) : Prop := -2147483648 ≤ i ∧ i < 2147483648

instance : (i : Int) → Decidable (i32InRange i) := fun _ => instDecidableAnd

/-- Every integer field of the action lies in the range of its Rust type. -/
def InputValid : Input → Prop
  | .tap t => i32InRange t.x ∧ i32InRange t.y
  | .swipe s => i32InRange s.x0 ∧ i32InRange s.x1 ∧ i32InRange s.y0 ∧
      i32InRange s.y1 ∧ u32InRange s.milliseconds
  | .key _ => True

instance : (inp : Input) → Decidable (InputValid inp)
  | .tap _ => instDecidableAnd
  | .swipe _ => instDecidableAnd
  | .key _ => isTrue trivial

def TimedValid (i : InputWithTimestamp) : Prop :=
  u32InRange i.timestamp_milliseconds ∧ InputValid i.input

instance : (i : InputWithTimestamp) → Decidable (TimedValid i) := fun _ => instDecidableAnd

/-- A failing line aborts the whole parsing loop of `deser_inputs_fmt`. -/
lemma deserLines_eq_none : ∀ (ls : List (List Char)) (l : List Char),
    l ∈ ls → parseInputWithTimestamp l = none → deserLines ls = none
  | l₀ :: rest, l, hmem, hfail => by
    rcases List.mem_cons.mp hmem with rfl | hmem
    · simp [deserLines, hfail]
    · rcases hp : parseInputWithTimestamp l₀ with _ | i
      · simp [deserLines, hp]
      · simp [deserLines, hp, deserLines_eq_none rest l hmem hfail]

/-- The ten decimal digit characters. -/
def digitCharsList : List Char := ['0', '1', '2', '3', '4', '5', '6', '7', '8', '9']

lemma digitChar_mem_digits {d : Nat} (h : d < 10) : digitChar d ∈ digitCharsList := by
  interval_cases d <;> decide

lemma digitVal_digitChar {d : Nat} (h : d < 10) : digitVal (digitChar d) = some d := by
  interval_cases d <;> decide

lemma digits_not_ws : ∀ c ∈ digitCharsList, isWsChar c = false := by decide

lemma digits_ne_space : ∀ c ∈ digitCharsList, c ≠ ' ' := by decide

lemma digits_ne_newline : ∀ c ∈ digitCharsList, c ≠ '\n' := by decide

lemma digits_ne_minus : ∀ c ∈ digitCharsList, c ≠ '-' := by decide

lemma digits_ne_plus : ∀ c ∈ digitCharsList, c ≠ '+' := by decide

lemma natToCharsAux_mem : ∀ (fuel n : Nat) (acc : List Char),
    ∀ c ∈ natToCharsAux fuel n acc, c ∈ digitCharsList ∨ c ∈ acc := by
  intro fuel
  induction fuel with
  | zero => intro n acc c hc; exact Or.inr hc
  | succ fuel ih =>
      intro n acc c hc
      rw [natToCharsAux] at hc
      by_cases hn : n = 0
      · rw [if_pos hn] at hc; exact Or.inr hc
      · rw [if_neg hn] at hc
        rcases ih (n / 10) (digitChar (n % 10) :: acc) c hc with h | h
        · exact Or.inl h
        · rcases List.mem_cons.mp h with rfl | h
          · exact Or.inl (digitChar_mem_digits (Nat.mod_lt _ (by omega)))
          · exact Or.inr h

lemma natToChars_mem (n : Nat) : ∀ c ∈ natToChars n, c ∈ digitCharsList := by
  intro c hc
  rw [natToChars] at hc
  by_cases hn : n = 0
  · rw [if_pos hn] at hc
    simp only [List.mem_singleton] at hc
    subst hc
    decide
  · rw [if_neg hn] at hc
    rcases natToCharsAux_mem (n + 1) n [] c hc with h | h
    · exact h
    · exact absurd h (List.not_mem_nil c)

lemma natToCharsAux_length_le : ∀ (fuel n : Nat) (acc : List Char),
    acc.length ≤ (natToCharsAux fuel n acc).length := by
  intro fuel
  induction fuel with
  | zero => intro n acc; exact le_rfl
  | succ fuel ih =>
      intro n acc
      rw [natToCharsAux]
      by_cases hn : n = 0
      · rw [if_pos hn]
      · rw [if_neg hn]
        calc acc.length ≤ (digitChar (n % 10) :: acc).length := by simp
          _ ≤ _ := ih (n / 10) _

lemma natToChars_ne_nil (n : Nat) : natToChars n ≠ [] := by
  rw [natToChars]
  by_cases hn : n = 0
  · rw [if_pos hn]; simp
  · rw [if_neg hn]
    intro h
    have h1 : (1 : Nat) ≤ (natToCharsAux (n + 1) n []).length := by
      rw [natToCharsAux, if_neg hn]
      calc (1 : Nat) = ([digitChar (n % 10)] : List Char).length := rfl
        _ ≤ _ := natToCharsAux_length_le n (n / 10) _
    rw [h] at h1
    simp at h1

lemma natToCharsAux_append_acc : ∀ (fuel n : Nat) (acc : List Char),
    natToCharsAux fuel n acc = natToCharsAux fuel n [] ++ acc := by
  intro fuel
  induction fuel with
  | zero => intro n acc; simp [natToCharsAux]
  | succ fuel ih =>
      intro n acc
      rw [natToCharsAux, natToCharsAux]
      by_cases hn : n = 0
      · rw [if_pos hn, if_pos hn]; simp
      · rw [if_neg hn, if_neg hn, ih (n / 10) (digitChar (n % 10) :: acc),
          ih (n / 10) [digitChar (n % 10)]]
        simp

lemma natToCharsAux_fuel_irrel : ∀ (n fuel₁ fuel₂ : Nat), n < fuel₁ → n < fuel₂ →
    natToCharsAux fuel₁ n [] = natToCharsAux fuel₂ n [] := by
  intro n
  induction n using Nat.strong_induction_on with
  | _ n ih =>
      intro fuel₁ fuel₂ h₁ h₂
      obtain ⟨f₁, rfl⟩ : ∃ f, fuel₁ = f + 1 := ⟨fuel₁ - 1, by omega⟩
      obtain ⟨f₂, rfl⟩ : ∃ f, fuel₂ = f + 1 := ⟨fuel₂ - 1, by omega⟩
      rw [natToCharsAux, natToCharsAux]
      by_cases hn : n = 0
      · rw [if_pos hn, if_pos hn]
      · rw [if_neg hn, if_neg hn,
          natToCharsAux_append_acc f₁ (n / 10), natToCharsAux_append_acc f₂ (n / 10)]
        by_cases hsmall : n / 10 = 0
        · rw [hsmall]
          have e1 : ∀ f : Nat, natToCharsAux f 0 [] = [] := by
            intro f; cases f <;> simp [natToCharsAux]
          rw [e1, e1]
        · rw [ih (n / 10) (by omega) f₁ f₂ (by omega) (by omega)]

lemma parseDigitsAcc_append : ∀ (l₁ l₂ : List Char) (acc : Nat),
    parseDigitsAcc (l₁ ++ l₂) acc =
      (parseDigitsAcc l₁ acc).bind (fun m => parseDigitsAcc l₂ m) := by
  intro l₁
  induction l₁ with
  | nil => intro l₂ acc; simp [parseDigitsAcc]
  | cons c r ih =>
      intro l₂ acc
      rw [List.cons_append, parseDigitsAcc, parseDigitsAcc]
      rcases h : digitVal c with _ | d
      · simp
      · simp only []
        exact ih l₂ (acc * 10 + d)

lemma parseDigitsAcc_natToChars : ∀ (n : Nat), 0 < n → ∀ (acc : Nat),
    parseDigitsAcc (natToCharsAux (n + 1) n []) acc =
      some (acc * 10 ^ (natToCharsAux (n + 1) n []).length + n) := by
  intro n
  induction n using Nat.strong_induction_on with
  | _ n ih =>
      intro hn acc
      have hne : n ≠ 0 := by omega
      rw [natToCharsAux, if_neg hne, natToCharsAux_append_acc]
      by_cases hq : n / 10 = 0
      · rw [hq]
        have e1 : ∀ f : Nat, natToCharsAux f 0 [] = [] := by
          intro f; cases f <;> simp [natToCharsAux]
        rw [e1]
        have hmod : n % 10 = n := by omega
        simp only [List.nil_append, parseDigitsAcc,
          digitVal_digitChar (Nat.mod_lt n (by omega))]
        rw [hmod]
        simp [parseDigitsAcc]
      · have hlt : n / 10 < n := Nat.div_lt_self hn (by omega)
        have hfe : natToCharsAux n (n / 10) [] = natToCharsAux (n / 10 + 1) (n / 10) [] :=
          natToCharsAux_fuel_irrel (n / 10) n (n / 10 + 1) (by omega) (by omega)
        rw [hfe, parseDigitsAcc_append, ih (n / 10) hlt (by omega) acc]
        simp only [Option.some_bind]
        rw [show ∀ m : Nat, parseDigitsAcc [digitChar (n % 10)] m = some (m * 10 + n % 10)
          from fun m => by simp [parseDigitsAcc, digitVal_digitChar (Nat.mod_lt n (by omega))]]
        congr 1
        have hdm : n / 10 * 10 + n % 10 = n := by omega
        have : (acc * 10 ^ (natToCharsAux (n / 10 + 1) (n / 10) []).length + n / 10) * 10 +
            n % 10 = acc * 10 ^ ((natToCharsAux (n / 10 + 1) (n / 10) []).length + 1) + n := by
          rw [pow_succ]
          ring_nf
          omega
        rw [this]
        congr 1
        simp [pow_succ]

lemma parseDigits_natToChars (n : Nat) : parseDigits (natToChars n) = some n := by
  by_cases hn : n = 0
  · subst hn; decide
  · have hne := natToChars_ne_nil n
    rw [parseDigits, if_neg (by simpa [List.isEmpty_iff] using hne)]
    rw [natToChars, if_neg hn] at hne ⊢
    have := parseDigitsAcc_natToChars n (by omega) 0
    rw [this]
    simp

lemma natToChars_head_ne_plus (n : Nat) :
    ∀ c r, natToChars n = c :: r → c ≠ '+' := by
  intro c r h
  have : c ∈ natToChars n := by rw [h]; exact List.mem_cons_self _ _
  exact digits_ne_plus c (natToChars_mem n c this)

lemma parseU32_natToChars {n : Nat} (h : n < 4294967296) :
    parseU32 (natToChars n) = some n := by
  rcases hl : natToChars n with _ | ⟨c, r⟩
  · exact absurd hl (natToChars_ne_nil n)
  · rw [parseU32]
    rw [if_neg (natToChars_head_ne_plus n c r hl)]
    rw [← hl, parseDigits_natToChars n]
    simp [h]

lemma intToChars_mem (i : Int) : ∀ c ∈ intToChars i, c ∈ '-' :: digitCharsList := by
  intro c hc
  rw [intToChars] at hc
  by_cases hi : i < 0
  · rw [if_pos hi] at hc
    rcases List.mem_cons.mp hc with rfl | hc
    · exact List.mem_cons_self _ _
    · exact List.mem_cons_of_mem _ (natToChars_mem _ c hc)
  · rw [if_neg hi] at hc
    exact List.mem_cons_of_mem _ (natToChars_mem _ c hc)

lemma intToChars_ne_nil (i : Int) : intToChars i ≠ [] := by
  rw [intToChars]
  by_cases hi : i < 0
  · rw [if_pos hi]; simp
  · rw [if_neg hi]; exact natToChars_ne_nil _

lemma minus_digits_not_ws : ∀ c ∈ '-' :: digitCharsList, isWsChar c = false := by decide

lemma minus_digits_ne_space : ∀ c ∈ '-' :: digitCharsList, c ≠ ' ' := by decide

lemma minus_digits_ne_newline : ∀ c ∈ '-' :: digitCharsList, c ≠ '\n' := by decide

lemma intToChars_not_ws (i : Int) : ∀ c ∈ intToChars i, isWsChar c = false :=
  fun c hc => minus_digits_not_ws c (intToChars_mem i c hc)

lemma natToChars_not_ws (n : Nat) : ∀ c ∈ natToChars n, isWsChar c = false :=
  fun c hc => digits_not_ws c (natToChars_mem n c hc)

lemma parseI32_intToChars {i : Int} (h : i32InRange i) :
    parseI32 (intToChars i) = some i := by
  obtain ⟨hlo, hhi⟩ := h
  by_cases hi : i < 0
  · have hl : intToChars i = '-' :: natToChars i.natAbs := by rw [intToChars, if_pos hi]
    rw [hl, parseI32, if_pos rfl, parseDigits_natToChars]
    have hr : i.natAbs ≤ 2147483648 := by omega
    rw [Option.some_bind, if_pos hr]
    congr 1
    omega
  · have hl : intToChars i = natToChars i.natAbs := by rw [intToChars, if_neg hi]
    rcases hnl : natToChars i.natAbs with _ | ⟨c, r⟩
    · exact absurd hnl (natToChars_ne_nil _)
    · have hcm : c ∈ digitCharsList :=
        natToChars_mem _ c (by rw [hnl]; exact List.mem_cons_self _ _)
      rw [hl, hnl, parseI32, if_neg (digits_ne_minus c hcm), if_neg (digits_ne_plus c hcm),
        ← hnl, parseDigits_natToChars]
      have hr : i.natAbs < 2147483648 := by omega
      rw [Option.some_bind, if_pos hr]
      congr 1
      omega

/-! Trim and split lemmas. -/

lemma dropWhile_append_all {p : Char → Bool} : ∀ (l₁ l₂ : List Char),
    (∀ c ∈ l₁, p c = true) → (l₁ ++ l₂).dropWhile p = l₂.dropWhile p := by
  intro l₁
  induction l₁ with
  | nil => intro l₂ _; rfl
  | cons c r ih =>
      intro l₂ hall
      rw [List.cons_append, List.dropWhile_cons,
        if_pos (hall c (List.mem_cons_self _ _))]
      exact ih l₂ (fun c hc => hall c (List.mem_cons_of_mem _ hc))

lemma dropWhile_eq_self {p : Char → Bool} : ∀ (l : List Char),
    (∀ c, l.head? = some c → p c = false) → l.dropWhile p = l := by
  intro l hl
  cases l with
  | nil => rfl
  | cons c r =>
      rw [List.dropWhile_cons, if_neg]
      rw [hl c rfl]
      simp

lemma replicate_space_ws (k : Nat) : ∀ c ∈ List.replicate k ' ', isWsChar c = true := by
  intro c hc
  rw [List.eq_of_mem_replicate hc]
  rfl

lemma trimChars_spec (pre core suf : List Char)
    (hpre : ∀ c ∈ pre, isWsChar c = true)
    (hsuf : ∀ c ∈ suf, isWsChar c = true)
    (hne : core ≠ [])
    (hhead : ∀ c, core.head? = some c → isWsChar c = false)
    (hlast : ∀ c, core.getLast? = some c → isWsChar c = false) :
    trimChars (pre ++ core ++ suf) = core := by
  obtain ⟨c, rest, rfl⟩ : ∃ c rest, core = c :: rest := by
    cases core with
    | nil => exact absurd rfl hne
    | cons c rest => exact ⟨c, rest, rfl⟩
  rw [trimChars, List.append_assoc, dropWhile_append_all pre _ hpre]
  rw [dropWhile_eq_self ((c :: rest) ++ suf) (by
    intro x hx
    simp only [List.cons_append, List.head?_cons, Option.some_inj] at hx
    subst hx
    exact hhead _ rfl)]
  rw [List.reverse_append, dropWhile_append_all _ _ (by
    intro x hx
    exact hsuf x (List.mem_reverse.mp hx))]
  rw [dropWhile_eq_self (c :: rest).reverse (by
    intro x hx
    rw [List.head?_reverse] at hx
    exact hlast x hx)]
  exact List.reverse_reverse _

lemma trim_eq_self_of_all (l : List Char) (h : ∀ c ∈ l, isWsChar c = false) :
    trimChars l = l := by
  cases hl : l with
  | nil => rfl
  | cons c r =>
      have := trimChars_spec [] (c :: r) [] (by simp) (by simp) (by simp)
        (by
          intro x hx
          simp only [List.head?_cons, Option.some_inj] at hx
          subst hx
          exact h _ (by rw [hl]; exact List.mem_cons_self _ _))
        (by
          intro x hx
          obtain ⟨hxe, rfl⟩ := List.mem_getLast?_eq_getLast hx
          exact h _ (by rw [hl]; exact List.getLast_mem hxe))
      simpa using this

lemma splitOnceChar_token : ∀ (tok rest : List Char), (∀ c ∈ tok, c ≠ ' ') →
    splitOnceChar ' ' (tok ++ ' ' :: rest) = some (tok, rest) := by
  intro tok
  induction tok with
  | nil => intro rest _; simp [splitOnceChar]
  | cons c r ih =>
      intro rest hall
      rw [List.cons_append, splitOnceChar, if_neg (hall c (List.mem_cons_self _ _)),
        ih rest (fun x hx => hall x (List.mem_cons_of_mem _ hx))]
      rfl

lemma head?_append_mem {A l : List Char} (hA : A ≠ []) :
    ∀ c, (A ++ l).head? = some c → c ∈ A := by
  cases A with
  | nil => exact absurd rfl hA
  | cons a r =>
      intro c hc
      simp only [List.cons_append, List.head?_cons, Option.some_inj] at hc
      subst hc
      exact List.mem_cons_self _ _

lemma getLast?_append_mem {A l : List Char} (hl : l ≠ []) :
    ∀ c, (A ++ l).getLast? = some c → c ∈ l := by
  intro c hc
  rw [List.getLast?_append_of_ne_nil A hl] at hc
  obtain ⟨hne, rfl⟩ := List.mem_getLast?_eq_getLast hc
  exact List.getLast_mem hne

/-! Whitespace-splitting lemmas. -/

lemma splitWsAux_ws_front : ∀ (pre l : List Char), (∀ c ∈ pre, isWsChar c = true) →
    splitWsAux (pre ++ l) [] = splitWsAux l [] := by
  intro pre
  induction pre with
  | nil => intro l _; rfl
  | cons c r ih =>
      intro l hall
      rw [List.cons_append, splitWsAux, if_pos (hall c (List.mem_cons_self _ _))]
      simp only [List.isEmpty_nil, if_pos]
      exact ih l (fun x hx => hall x (List.mem_cons_of_mem _ hx))

lemma splitWsAux_token : ∀ (tok rest acc : List Char),
    (tok ≠ [] ∨ acc ≠ []) → (∀ c ∈ tok, isWsChar c = false) →
    splitWsAux (tok ++ ' ' :: rest) acc = (acc.reverse ++ tok) :: splitWsAux rest [] := by
  intro tok
  induction tok with
  | nil =>
      intro rest acc hne _
      have hacc : acc ≠ [] := by
        rcases hne with h | h
        · exact absurd rfl h
        · exact h
      rw [List.nil_append, splitWsAux]
      simp [show isWsChar ' ' = true from rfl, List.isEmpty_iff, hacc]
  | cons c r ih =>
      intro rest acc hne hall
      rw [List.cons_append, splitWsAux, if_neg (by
        rw [hall c (List.mem_cons_self _ _)]; simp)]
      rw [ih rest (c :: acc) (Or.inr (by simp))
        (fun x hx => hall x (List.mem_cons_of_mem _ hx))]
      simp

lemma splitWsAux_last : ∀ (tok acc : List Char),
    (tok ≠ [] ∨ acc ≠ []) → (∀ c ∈ tok, isWsChar c = false) →
    splitWsAux tok acc = [acc.reverse ++ tok] := by
  intro tok
  induction tok with
  | nil =>
      intro acc hne _
      have hacc : acc ≠ [] := by
        rcases hne with h | h
        · exact absurd rfl h
        · exact h
      rw [splitWsAux]
      simp [List.isEmpty_iff, hacc]
  | cons c r ih =>
      intro acc hne hall
      rw [splitWsAux, if_neg (by rw [hall c (List.mem_cons_self _ _)]; simp)]
      rw [ih (c :: acc) (Or.inr (by simp))
        (fun x hx => hall x (List.mem_cons_of_mem _ hx))]
      simp

lemma splitWs_pad_token (k : Nat) (tok rest : List Char) (hne : tok ≠ [])
    (htok : ∀ c ∈ tok, isWsChar c = false) :
    splitWsAux (List.replicate k ' ' ++ (tok ++ ' ' :: rest)) [] =
      tok :: splitWsAux rest [] := by
  rw [splitWsAux_ws_front _ _ (replicate_space_ws k),
    splitWsAux_token tok rest [] (Or.inl hne) htok]
  simp

lemma splitWs_pad_last (k : Nat) (tok : List Char) (hne : tok ≠ [])
    (htok : ∀ c ∈ tok, isWsChar c = false) :
    splitWsAux (List.replicate k ' ' ++ tok) [] = [tok] := by
  rw [splitWsAux_ws_front _ _ (replicate_space_ws k),
    splitWsAux_last tok [] (Or.inl hne) htok]
  simp

lemma head?_mem_self {l : List Char} : ∀ c, l.head? = some c → c ∈ l := by
  cases l with
  | nil => intro c hc; cases hc
  | cons a r =>
      intro c hc
      simp only [List.head?_cons, Option.some_inj] at hc
      subst hc
      exact List.mem_cons_self _ _

lemma getLast?_mem_self {l : List Char} : ∀ c, l.getLast? = some c → c ∈ l := by
  intro c hc
  obtain ⟨h, rfl⟩ := List.mem_getLast?_eq_getLast (Option.mem_def.mpr hc)
  exact List.getLast_mem h

lemma trimChars_pre_ends (pre core : List Char) (hpre : ∀ c ∈ pre, isWsChar c = true)
    (hne : core ≠ [])
    (hhead : ∀ c, core.head? = some c → isWsChar c = false)
    (hlast : ∀ c, core.getLast? = some c → isWsChar c = false) :
    trimChars (pre ++ core) = core := by
  have := trimChars_spec pre core [] hpre (by simp) hne hhead hlast
  simpa using this

lemma trim_pad_token (pre tok : List Char) (hpre : ∀ c ∈ pre, isWsChar c = true)
    (hne : tok ≠ []) (hall : ∀ c ∈ tok, isWsChar c = false) :
    trimChars (pre ++ tok) = tok :=
  trimChars_pre_ends pre tok hpre hne
    (fun c hc => hall c (head?_mem_self c hc))
    (fun c hc => hall c (getLast?_mem_self c hc))

lemma parseI32_trim_pad {x : Int} (hx : i32InRange x) (pre : List Char)
    (hpre : ∀ c ∈ pre, isWsChar c = true) :
    parseI32 (trimChars (pre ++ intToChars x)) = some x := by
  rw [trim_pad_token pre _ hpre (intToChars_ne_nil x) (intToChars_not_ws x)]
  exact parseI32_intToChars hx

lemma keyChars_ne_nil (k : Key) : keyChars k ≠ [] := by cases k <;> decide

lemma keyChars_not_ws (k : Key) : ∀ c ∈ keyChars k, isWsChar c = false := by
  cases k <;> decide

lemma keyChars_no_newline (k : Key) : ∀ c ∈ keyChars k, c ≠ '\n' := by
  cases k <;> decide

lemma mem_padNum_int {x : Int} {w : Nat} :
    ∀ c ∈ padNum w (intToChars x), c = ' ' ∨ c ∈ '-' :: digitCharsList := by
  intro c hc
  rw [padNum] at hc
  rcases List.mem_append.mp hc with h | h
  · exact Or.inl (List.eq_of_mem_replicate h)
  · exact Or.inr (intToChars_mem x c h)

lemma mem_padNum_nat {n : Nat} {w : Nat} :
    ∀ c ∈ padNum w (natToChars n), c = ' ' ∨ c ∈ digitCharsList := by
  intro c hc
  rw [padNum] at hc
  rcases List.mem_append.mp hc with h | h
  · exact Or.inl (List.eq_of_mem_replicate h)
  · exact Or.inr (natToChars_mem n c h)

lemma padNum_int_no_newline {x : Int} {w : Nat} :
    ∀ c ∈ padNum w (intToChars x), c ≠ '\n' := by
  intro c hc
  rcases mem_padNum_int c hc with rfl | h
  · decide
  · exact minus_digits_ne_newline c h

lemma padNum_nat_no_newline {n : Nat} {w : Nat} :
    ∀ c ∈ padNum w (natToChars n), c ≠ '\n' := by
  intro c hc
  rcases mem_padNum_nat c hc with rfl | h
  · decide
  · exact digits_ne_newline c h

lemma displayInput_no_newline (inp : Input) : ∀ c ∈ displayInput inp, c ≠ '\n' := by
  cases inp with
  | tap t =>
      intro c hc
      rw [show displayInput (.tap t) = padStr 6 "tap".toList ++
        ' ' :: (padNum 4 (intToChars t.x) ++ ' ' :: padNum 4 (intToChars t.y)) from rfl] at hc
      rcases List.mem_append.mp hc with h | h
      · exact (by decide : ∀ c ∈ padStr 6 "tap".toList, c ≠ '\n') c h
      · rcases List.mem_cons.mp h with rfl | h
        · decide
        · rcases List.mem_append.mp h with h | h
          · exact padNum_int_no_newline c h
          · rcases List.mem_cons.mp h with rfl | h
            · decide
            · exact padNum_int_no_newline c h
  | swipe s =>
      intro c hc
      rw [show displayInput (.swipe s) = padStr 6 "swipe".toList ++
        ' ' :: (padNum 4 (intToChars s.x0) ++ ' ' :: (padNum 4 (intToChars s.y0) ++
          ' ' :: (padNum 4 (intToChars s.x1) ++ ' ' :: (padNum 4 (intToChars s.y1) ++
            ' ' :: padNum 4 (natToChars s.milliseconds))))) from by
        simp [displayInput, displaySwipe, List.append_assoc]] at hc
      rcases List.mem_append.mp hc with h | h
      · exact (by decide : ∀ c ∈ padStr 6 "swipe".toList, c ≠ '\n') c h
      · rcases List.mem_cons.mp h with rfl | h
        · decide
        · rcases List.mem_append.mp h with h | h
          · exact padNum_int_no_newline c h
          · rcases List.mem_cons.mp h with rfl | h
            · decide
            · rcases List.mem_append.mp h with h | h
              · exact padNum_int_no_newline c h
              · rcases List.mem_cons.mp h with rfl | h
                · decide
                · rcases List.mem_append.mp h with h | h
                  · exact padNum_int_no_newline c h
                  · rcases List.mem_cons.mp h with rfl | h
                    · decide
                    · rcases List.mem_append.mp h with h | h
                      · exact padNum_int_no_newline c h
                      · rcases List.mem_cons.mp h with rfl | h
                        · decide
                        · exact padNum_nat_no_newline c h
  | key k =>
      intro c hc
      rw [show displayInput (.key k) = padStr 6 "keyevent".toList ++ ' ' :: keyChars k
        from rfl] at hc
      rcases List.mem_append.mp hc with h | h
      · exact (by decide : ∀ c ∈ padStr 6 "keyevent".toList, c ≠ '\n') c h
      · rcases List.mem_cons.mp h with rfl | h
        · decide
        · exact keyChars_no_newline k c h

lemma displayIWT_no_newline (i : InputWithTimestamp) :
    ∀ c ∈ displayInputWithTimestamp i, c ≠ '\n' := by
  intro c hc
  rw [displayInputWithTimestamp] at hc
  rcases List.mem_append.mp hc with h | h
  · exact padNum_nat_no_newline c h
  · rcases List.mem_cons.mp h with rfl | h
    · decide
    · exact displayInput_no_newline i.input c h

lemma displayInput_head (inp : Input) :
    ∀ c, (displayInput inp).head? = some c → isWsChar c = false := by
  cases inp with
  | tap t =>
      intro c hc
      rw [show displayInput (.tap t) =
        't' :: (['a', 'p', ' ', ' ', ' '] ++ ' ' :: displayTap t) from rfl] at hc
      simp only [List.head?_cons, Option.some_inj] at hc
      subst hc
      decide
  | swipe s =>
      intro c hc
      rw [show displayInput (.swipe s) =
        's' :: (['w', 'i', 'p', 'e', ' '] ++ ' ' :: displaySwipe s) from rfl] at hc
      simp only [List.head?_cons, Option.some_inj] at hc
      subst hc
      decide
  | key k =>
      intro c hc
      rw [show displayInput (.key k) =
        'k' :: (['e', 'y', 'e', 'v', 'e', 'n', 't'] ++ ' ' :: keyChars k) from rfl] at hc
      simp only [List.head?_cons, Option.some_inj] at hc
      subst hc
      decide

lemma displayInput_last (inp : Input) :
    ∀ c, (displayInput inp).getLast? = some c → isWsChar c = false := by
  cases inp with
  | tap t =>
      intro c hc
      rw [show displayInput (.tap t) =
        (padStr 6 "tap".toList ++ ' ' :: (padNum 4 (intToChars t.x) ++
          ' ' :: List.replicate (4 - (intToChars t.y).length) ' ')) ++ intToChars t.y from by
        simp [displayInput, displayTap, padNum, List.append_assoc]] at hc
      exact intToChars_not_ws t.y c (getLast?_append_mem (intToChars_ne_nil t.y) c hc)
  | swipe s =>
      intro c hc
      rw [show displayInput (.swipe s) =
        (padStr 6 "swipe".toList ++ ' ' :: (padNum 4 (intToChars s.x0) ++
          ' ' :: (padNum 4 (intToChars s.y0) ++ ' ' :: (padNum 4 (intToChars s.x1) ++
            ' ' :: (padNum 4 (intToChars s.y1) ++
              ' ' :: List.replicate (4 - (natToChars s.milliseconds).length) ' '))))) ++
          natToChars s.milliseconds from by
        simp [displayInput, displaySwipe, padNum, List.append_assoc]] at hc
      exact natToChars_not_ws s.milliseconds c
        (getLast?_append_mem (natToChars_ne_nil s.milliseconds) c hc)
  | key k =>
      intro c hc
      rw [show displayInput (.key k) =
        (padStr 6 "keyevent".toList ++ [' ']) ++ keyChars k from by
        simp [displayInput, List.append_assoc]] at hc
      exact keyChars_not_ws k c (getLast?_append_mem (keyChars_ne_nil k) c hc)

lemma displayInput_ne_nil (inp : Input) : displayInput inp ≠ [] := by
  cases inp with
  | tap t =>
      rw [show displayInput (.tap t) =
        't' :: (['a', 'p', ' ', ' ', ' '] ++ ' ' :: displayTap t) from rfl]
      simp
  | swipe s =>
      rw [show displayInput (.swipe s) =
        's' :: (['w', 'i', 'p', 'e', ' '] ++ ' ' :: displaySwipe s) from rfl]
      simp
  | key k =>
      rw [show displayInput (.key k) =
        'k' :: (['e', 'y', 'e', 'v', 'e', 'n', 't'] ++ ' ' :: keyChars k) from rfl]
      simp

lemma intToChars_ne_space (i : Int) : ∀ c ∈ intToChars i, c ≠ ' ' :=
  fun c hc => minus_digits_ne_space c (intToChars_mem i c hc)

lemma natToChars_ne_space (n : Nat) : ∀ c ∈ natToChars n, c ≠ ' ' :=
  fun c hc => digits_ne_space c (natToChars_mem n c hc)

lemma trim_eq_self_ends (l : List Char) (hne : l ≠ [])
    (hhead : ∀ c, l.head? = some c → isWsChar c = false)
    (hlast : ∀ c, l.getLast? = some c → isWsChar c = false) :
    trimChars l = l := by
  have := trimChars_pre_ends [] l (by simp) hne hhead hlast
  simpa using this

lemma parseTap_display {x y : Int} (hx : i32InRange x) (hy : i32InRange y) :
    parseTap ([' ', ' ', ' '] ++ displayTap ⟨x, y⟩) = some ⟨x, y⟩ := by
  have e2 : intToChars x ++ ' ' :: padNum 4 (intToChars y) =
      (intToChars x ++ ' ' :: List.replicate (4 - (intToChars y).length) ' ') ++
        intToChars y := by
    simp [padNum, List.append_assoc]
  have htrim : trimChars ([' ', ' ', ' '] ++ displayTap ⟨x, y⟩) =
      intToChars x ++ ' ' :: padNum 4 (intToChars y) := by
    rw [show [' ', ' ', ' '] ++ displayTap ⟨x, y⟩ =
        ([' ', ' ', ' '] ++ List.replicate (4 - (intToChars x).length) ' ') ++
          (intToChars x ++ ' ' :: padNum 4 (intToChars y)) from by
      simp [displayTap, padNum, List.append_assoc]]
    refine trimChars_pre_ends _ _ ?_ (by simp) ?_ ?_
    · intro c hc
      rcases List.mem_append.mp hc with h | h
      · exact (by decide : ∀ c ∈ ([' ', ' ', ' '] : List Char), isWsChar c = true) c h
      · rw [List.eq_of_mem_replicate h]; rfl
    · intro c hc
      exact intToChars_not_ws x c (head?_append_mem (intToChars_ne_nil x) c hc)
    · intro c hc
      rw [e2] at hc
      exact intToChars_not_ws y c (getLast?_append_mem (intToChars_ne_nil y) c hc)
  rw [parseTap, htrim, splitOnceChar_token _ _ (intToChars_ne_space x), Option.some_bind,
    trim_eq_self_of_all _ (intToChars_not_ws x), parseI32_intToChars hx, Option.some_bind,
    show padNum 4 (intToChars y) =
      List.replicate (4 - (intToChars y).length) ' ' ++ intToChars y from rfl,
    parseI32_trim_pad hy _ (replicate_space_ws _)]
  rfl

lemma parseSwipe_display {x0 x1 y0 y1 : Int} {ms : Nat}
    (hx0 : i32InRange x0) (hx1 : i32InRange x1) (hy0 : i32InRange y0)
    (hy1 : i32InRange y1) (hms : u32InRange ms) :
    parseSwipe ([' '] ++ displaySwipe ⟨x0, x1, y0, y1, ms⟩) = some ⟨x0, x1, y0, y1, ms⟩ := by
  have hcore : trimChars ([' '] ++ displaySwipe ⟨x0, x1, y0, y1, ms⟩) =
      intToChars x0 ++ ' ' :: (padNum 4 (intToChars y0) ++ ' ' ::
        (padNum 4 (intToChars x1) ++ ' ' :: (padNum 4 (intToChars y1) ++ ' ' ::
          padNum 4 (natToChars ms)))) := by
    rw [show [' '] ++ displaySwipe ⟨x0, x1, y0, y1, ms⟩ =
        ([' '] ++ List.replicate (4 - (intToChars x0).length) ' ') ++
          (intToChars x0 ++ ' ' :: (padNum 4 (intToChars y0) ++ ' ' ::
            (padNum 4 (intToChars x1) ++ ' ' :: (padNum 4 (intToChars y1) ++ ' ' ::
              padNum 4 (natToChars ms))))) from by
      simp [displaySwipe, padNum, List.append_assoc]]
    refine trimChars_pre_ends _ _ ?_ (by simp) ?_ ?_
    · intro c hc
      rcases List.mem_append.mp hc with h | h
      · exact (by decide : ∀ c ∈ ([' '] : List Char), isWsChar c = true) c h
      · rw [List.eq_of_mem_replicate h]; rfl
    · intro c hc
      exact intToChars_not_ws x0 c (head?_append_mem (intToChars_ne_nil x0) c hc)
    · intro c hc
      rw [show intToChars x0 ++ ' ' :: (padNum 4 (intToChars y0) ++ ' ' ::
          (padNum 4 (intToChars x1) ++ ' ' :: (padNum 4 (intToChars y1) ++ ' ' ::
            padNum 4 (natToChars ms)))) =
          (intToChars x0 ++ ' ' :: (padNum 4 (intToChars y0) ++ ' ' ::
            (padNum 4 (intToChars x1) ++ ' ' :: (padNum 4 (intToChars y1) ++ ' ' ::
              List.replicate (4 - (natToChars ms).length) ' ')))) ++ natToChars ms from by
        simp [padNum, List.append_assoc]] at hc
      exact natToChars_not_ws ms c (getLast?_append_mem (natToChars_ne_nil ms) c hc)
  have hsplit : splitWsChars (trimChars ([' '] ++ displaySwipe ⟨x0, x1, y0, y1, ms⟩)) =
      [intToChars x0, intToChars y0, intToChars x1, intToChars y1, natToChars ms] := by
    rw [hcore, splitWsChars,
      splitWsAux_token _ _ [] (Or.inl (intToChars_ne_nil x0)) (intToChars_not_ws x0)]
    rw [show padNum 4 (intToChars y0) ++ ' ' :: (padNum 4 (intToChars x1) ++ ' ' ::
        (padNum 4 (intToChars y1) ++ ' ' :: padNum 4 (natToChars ms))) =
        List.replicate (4 - (intToChars y0).length) ' ' ++ (intToChars y0 ++ ' ' ::
          (padNum 4 (intToChars x1) ++ ' ' :: (padNum 4 (intToChars y1) ++ ' ' ::
            padNum 4 (natToChars ms)))) from by simp [padNum, List.append_assoc]]
    rw [splitWs_pad_token _ _ _ (intToChars_ne_nil y0) (intToChars_not_ws y0)]
    rw [show padNum 4 (intToChars x1) ++ ' ' :: (padNum 4 (intToChars y1) ++ ' ' ::
        padNum 4 (natToChars ms)) =
        List.replicate (4 - (intToChars x1).length) ' ' ++ (intToChars x1 ++ ' ' ::
          (padNum 4 (intToChars y1) ++ ' ' :: padNum 4 (natToChars ms))) from by
      simp [padNum, List.append_assoc]]
    rw [splitWs_pad_token _ _ _ (intToChars_ne_nil x1) (intToChars_not_ws x1)]
    rw [show padNum 4 (intToChars y1) ++ ' ' :: padNum 4 (natToChars ms) =
        List.replicate (4 - (intToChars y1).length) ' ' ++ (intToChars y1 ++ ' ' ::
          padNum 4 (natToChars ms)) from by simp [padNum, List.append_assoc]]
    rw [splitWs_pad_token _ _ _ (intToChars_ne_nil y1) (intToChars_not_ws y1)]
    rw [show padNum 4 (natToChars ms) =
        List.replicate (4 - (natToChars ms).length) ' ' ++ natToChars ms from rfl]
    rw [splitWs_pad_last _ _ (natToChars_ne_nil ms) (natToChars_not_ws ms)]
    simp
  rw [parseSwipe, hsplit]
  dsimp only
  rw [parseI32_intToChars hx0, parseI32_intToChars hy0, parseI32_intToChars hx1,
    parseI32_intToChars hy1, parseU32_natToChars hms]
  rfl

lemma parseKey_display (k : Key) : parseKey (keyChars k) = some k := by
  cases k <;> decide

lemma parseInput_display (inp : Input) (hv : InputValid inp) :
    parseInput (displayInput inp) = some inp := by
  have htrim : trimChars (displayInput inp) = displayInput inp :=
    trim_eq_self_ends _ (displayInput_ne_nil inp) (displayInput_head inp)
      (displayInput_last inp)
  cases inp with
  | tap t =>
      obtain ⟨x, y⟩ := t
      have hv' : i32InRange x ∧ i32InRange y := hv
      rw [parseInput, htrim,
        show displayInput (.tap ⟨x, y⟩) =
          ['t', 'a', 'p'] ++ ' ' :: ([' ', ' ', ' '] ++ displayTap ⟨x, y⟩) from rfl,
        splitOnceChar_token _ _ (by decide), Option.some_bind,
        if_pos (by decide : trimChars ['t', 'a', 'p'] = "tap".toList),
        parseTap_display hv'.1 hv'.2]
      rfl
  | swipe s =>
      obtain ⟨x0, x1, y0, y1, ms⟩ := s
      have hv' : i32InRange x0 ∧ i32InRange x1 ∧ i32InRange y0 ∧ i32InRange y1 ∧
          u32InRange ms := hv
      rw [parseInput, htrim,
        show displayInput (.swipe ⟨x0, x1, y0, y1, ms⟩) =
          ['s', 'w', 'i', 'p', 'e'] ++ ' ' ::
            ([' '] ++ displaySwipe ⟨x0, x1, y0, y1, ms⟩) from rfl,
        splitOnceChar_token _ _ (by decide), Option.some_bind,
        if_neg (by decide : ¬(trimChars ['s', 'w', 'i', 'p', 'e'] = "tap".toList)),
        if_pos (by decide : trimChars ['s', 'w', 'i', 'p', 'e'] = "swipe".toList),
        parseSwipe_display hv'.1 hv'.2.1 hv'.2.2.1 hv'.2.2.2.1 hv'.2.2.2.2]
      rfl
  | key k =>
      rw [parseInput, htrim,
        show displayInput (.key k) =
          ['k', 'e', 'y', 'e', 'v', 'e', 'n', 't'] ++ ' ' :: keyChars k from rfl,
        splitOnceChar_token _ _ (by decide), Option.some_bind,
        if_neg (by decide :
          ¬(trimChars ['k', 'e', 'y', 'e', 'v', 'e', 'n', 't'] = "tap".toList)),
        if_neg (by decide :
          ¬(trimChars ['k', 'e', 'y', 'e', 'v', 'e', 'n', 't'] = "swipe".toList)),
        if_pos (by decide :
          trimChars ['k', 'e', 'y', 'e', 'v', 'e', 'n', 't'] = "keyevent".toList),
        parseKey_display k]
      rfl

/-- One serialized line (including the trailing newline `writeln!` adds)
parses back to the action it was rendered from. -/
lemma parse_display_line (i : InputWithTimestamp) (hv : TimedValid i) :
    parseInputWithTimestamp (displayInputWithTimestamp i ++ ['\n']) = some i := by
  obtain ⟨inp, ts⟩ := i
  have hts : u32InRange ts := hv.1
  have hinp : InputValid inp := hv.2
  have e : displayInputWithTimestamp ⟨inp, ts⟩ ++ ['\n'] =
      List.replicate (6 - (natToChars ts).length) ' ' ++
        (natToChars ts ++ ' ' :: displayInput inp) ++ ['\n'] := by
    simp [displayInputWithTimestamp, padNum, List.append_assoc]
  rw [parseInputWithTimestamp, e,
    trimChars_spec _ _ _ (replicate_space_ws _) (by decide) (by simp)
      (fun c hc => natToChars_not_ws ts c (head?_mem_self c (by
        rcases hl : natToChars ts with _ | ⟨a, r⟩
        · exact absurd hl (natToChars_ne_nil ts)
        · rw [hl, List.cons_append, List.head?_cons] at hc
          simpa using hc)))
      (fun c hc => by
        rw [show natToChars ts ++ ' ' :: displayInput inp =
            (natToChars ts ++ [' ']) ++ displayInput inp from by
          simp [List.append_assoc]] at hc
        rw [List.getLast?_append_of_ne_nil _ (displayInput_ne_nil inp)] at hc
        exact displayInput_last inp c hc),
    splitOnceChar_token _ _ (natToChars_ne_space ts), Option.some_bind,
    parseU32_natToChars hts, Option.some_bind,
    trim_eq_self_ends _ (displayInput_ne_nil inp) (displayInput_head inp)
      (displayInput_last inp),
    parseInput_display inp hinp]
  rfl

lemma readLinesAux_line : ∀ (line rest acc : List Char), (∀ c ∈ line, c ≠ '\n') →
    readLinesAux (line ++ '\n' :: rest) acc =
      (acc.reverse ++ line ++ ['\n']) :: readLinesAux rest [] := by
  intro line
  induction line with
  | nil =>
      intro rest acc _
      rw [List.nil_append, readLinesAux, if_pos rfl]
      simp
  | cons c r ih =>
      intro rest acc hall
      rw [List.cons_append, readLinesAux, if_neg (hall c (List.mem_cons_self _ _)),
        ih rest (c :: acc) (fun x hx => hall x (List.mem_cons_of_mem _ hx))]
      simp

lemma readLines_cons_line (line rest : List Char) (h : ∀ c ∈ line, c ≠ '\n') :
    readLines (line ++ '\n' :: rest) = (line ++ ['\n']) :: readLines rest := by
  rw [readLines, readLinesAux_line line rest [] h, readLines]
  simp

/-- Writing a valid action sequence and reading it back reproduces it. -/
lemma deser_serialize (inputs : List InputWithTimestamp)
    (hvalid : ∀ i ∈ inputs, TimedValid i) :
    deser_inputs_fmt (serialize_inputs_fmt inputs) = some inputs := by
  induction inputs with
  | nil => rfl
  | cons i l ih =>
      rw [deser_inputs_fmt, serialize_inputs_fmt,
        readLines_cons_line _ _ (displayIWT_no_newline i), deserLines,
        parse_display_line i (hvalid i (List.mem_cons_self _ _)), Option.some_bind,
        show deserLines (readLines (serialize_inputs_fmt l)) =
          deser_inputs_fmt (serialize_inputs_fmt l) from rfl,
        ih (fun j hj => hvalid j (List.mem_cons_of_mem _ hj))]
      rfl

/-- C3: round-trip law of the recording codec: serializing a non-empty
sequence of actions with non-decreasing timestamps (whose integer fields fit
the Rust `u32`/`i32` field types) and reading the text back succeeds and
reproduces exactly the same ordered sequence. -/
theorem c3_roundtrip (inputs : List InputWithTimestamp)
    (_hne : inputs ≠ [])
    (_hsorted : List.Chain' (· ≤ ·) (inputs.map (fun a => a.timestamp_milliseconds)))
    (hvalid : ∀ i ∈ inputs, TimedValid i) :
    deser_inputs_fmt (serialize_inputs_fmt inputs) = some inputs :=
  deser_serialize inputs hvalid

/-- C3 witness: the round trip on a concrete three-action sequence covering
all three constructors and negative coordinates. -/
theorem c3_witness :
    (([⟨.tap ⟨1, -2⟩, 5⟩, ⟨.swipe ⟨10, -20, 30, 40, 250⟩, 77⟩, ⟨.key .home, 1000⟩] :
        List InputWithTimestamp) ≠ []) ∧
    List.Chain' (· ≤ ·)
      (([⟨.tap ⟨1, -2⟩, 5⟩, ⟨.swipe ⟨10, -20, 30, 40, 250⟩, 77⟩, ⟨.key .home, 1000⟩] :
        List InputWithTimestamp).map (fun a => a.timestamp_milliseconds)) ∧
    (∀ i ∈ ([⟨.tap ⟨1, -2⟩, 5⟩, ⟨.swipe ⟨10, -20, 30, 40, 250⟩, 77⟩, ⟨.key .home, 1000⟩] :
        List InputWithTimestamp), TimedValid i) ∧
    deser_inputs_fmt (serialize_inputs_fmt
      [⟨.tap ⟨1, -2⟩, 5⟩, ⟨.swipe ⟨10, -20, 30, 40, 250⟩, 77⟩, ⟨.key .home, 1000⟩]) =
      some [⟨.tap ⟨1, -2⟩, 5⟩, ⟨.swipe ⟨10, -20, 30, 40, 250⟩, 77⟩, ⟨.key .home, 1000⟩] :=
  ⟨by decide, by simp [List.chain'_cons], by decide,
   c3_roundtrip _ (by decide) (by simp [List.chain'_cons]) (by decide)⟩

/-- C10: the persisted-recording read direction is strict and atomic: if any
line of the text fails to parse as a timestamped action, `deser_inputs_fmt`
fails the whole read (returning the single format error, i.e. `none`) and
yields no partial sequence. -/
theorem c10_strict_read (text l : List Char) (hmem : l ∈ readLines text)
    (hfail : parseInputWithTimestamp l = none) :
    deser_inputs_fmt text = none :=
  deserLines_eq_none (readLines text) l hmem hfail

/-- C10 witness: the concrete malformed line "abc tap 1 2" (non-numeric
timestamp) makes the whole read fail. -/
theorem c10_witness :
    ("abc tap 1 2".toList ∈ readLines ("abc tap 1 2".toList)) ∧
    parseInputWithTimestamp ("abc tap 1 2".toList) = none ∧
    deser_inputs_fmt ("abc tap 1 2".toList) = none :=
  ⟨by decide, by decide,
   c10_strict_read ("abc tap 1 2".toList) ("abc tap 1 2".toList) (by decide) (by decide)⟩

/-! ### Playback loop (`input_player.rs` 30-96)

The async playback task is modelled as the trace of observable steps one
iteration of `'main_loop` performs: timed sleeps, status publications,
injected commands, and the final `Finished` publication after a break.
The function `cancelled idx` abstracts the `stop_recv.try_recv()` check made
immediately before the sleep of action `idx`: it is `true` when the stop
signal has been received (`Ok`) or the channel is closed
(`TryRecvError::Closed`) by the time that check runs. -/

inductive PlayStep
  | sleep (ms : Nat)
  | status (repetition : Nat) (element : Option Nat)
  | command (inp : Input)
  | statusFinished
deriving DecidableEq, Repr

/-- The `for (idx, input) in inputs.iter().enumerate()` loop of one playback
iteration: check cancellation, sleep the delta from the previous action's
timestamp when positive, publish `Repeating { repetition, Some idx }`, issue
the command.  The `u32` subtraction `input.timestamp_milliseconds -
last_millis` is guarded (`none` models the underflow panic).  The boolean
result records whether `break 'main_loop` was taken. -/
def playActions (cancelled : Nat → Bool) (repetition : Nat) :
    Nat → Nat → List InputWithTimestamp → Option (List PlayStep × Bool)
  | _, _, [] => some ([], false)
  | idx, last_millis, a :: rest =>
      if cancelled idx then some ([], true)
      else if last_millis ≤ a.timestamp_milliseconds then
        let diff := a.timestamp_milliseconds - last_millis
        (playActions cancelled repetition (idx + 1) a.timestamp_milliseconds rest).map
          (fun p => ((if diff > 0 then [PlayStep.sleep diff] else []) ++
            PlayStep.status repetition (some idx) :: PlayStep.command a.input :: p.1, p.2))
      else none

/-- One iteration of `'main_loop`: the per-action loop; if it broke, the task
falls out of `'main_loop` and publishes `Finished`; otherwise the extra
`duration_ms` sleep when the last action is a Swipe, the end-of-loop status
`Repeating { repetition, None }`, and the inter-loop delay sleep follow
(after which the next iteration would begin). -/
def runLoopBody (cancelled : Nat → Bool) (repetition delay_ms_between_loops : Nat)
    (inputs : List InputWithTimestamp) : Option (List PlayStep) :=
  (playActions cancelled repetition 0 0 inputs).map (fun p =>
    if p.2 then p.1 ++ [PlayStep.statusFinished]
    else p.1 ++
      (match inputs.getLast? with
       | some ⟨Input.swipe s, _⟩ => [PlayStep.sleep s.milliseconds]
       | _ => []) ++
      [PlayStep.status repetition none, PlayStep.sleep delay_ms_between_loops])

/-- The commands issued in a trace, in order. -/
def commandsOf (tr : List PlayStep) : List Input :=
  tr.filterMap (fun st => match st with | .command c => some c | _ => none)

/-- The sleep durations issued in a trace, in order. -/
def sleepsOf (tr : List PlayStep) : List Nat :=
  tr.filterMap (fun st => match st with | .sleep d => some d | _ => none)

/-! ### Recording controller result handoff (`input_event_recorder.rs` 49-115)

`try_get_result` is modelled together with the state of the tokio oneshot
receiver it polls.  `OneshotState.empty` is a channel whose value has not
been sent yet, `ready v` holds the sent value, and `closed` is a spent or
dead channel: tokio's `oneshot::Receiver::try_recv` consumes the value on
success and reports `TryRecvError::Closed` on every later call (and when the
sender dropped without sending). -/

inductive OneshotState (α : Type)
  | empty
  | ready (v : α)
  | closed
deriving DecidableEq

inductive OneshotTryRecvError
  | empty
  | closed
deriving DecidableEq

def oneshotTryRecv {α : Type} :
    OneshotState α → Except OneshotTryRecvError α × OneshotState α
  | .empty => (Except.error .empty, .empty)
  | .ready v => (Except.ok v, .closed)
  | .closed => (Except.error .closed, .closed)

inductive GetResultError
  | notYetAvailable
  | alreadyReceived
  | internalError
deriving DecidableEq

/-- The `result_recv` field of `InputRecorder`.  Note: nothing in the source
ever sets it back to `None`; `try_get_result` only reads it through
`if let Some(recv) = &mut self.result_recv`. -/
structure InputRecorder where
  result_recv : Option (OneshotState (Option (List InputWithTimestamp)))
deriving DecidableEq

/-- `InputRecorder::try_get_result` (`input_event_recorder.rs` 101-115):
map `TryRecvError::Empty` to `NotYetAvailable` and `Closed` to
`InternalError`; a received `None` payload is an `InternalError`; the
`AlreadyReceived` branch fires only when `result_recv` is `None`. -/
def try_get_result (r : InputRecorder) :
    Except GetResultError (List InputWithTimestamp) × InputRecorder :=
  match r.result_recv with
  | some recv =>
      let res := oneshotTryRecv recv
      let r' : InputRecorder := { result_recv := some res.2 }
      match res.1 with
      | .error .empty => (Except.error GetResultError.notYetAvailable, r')
      | .error .closed => (Except.error GetResultError.internalError, r')
      | .ok (some v) => (Except.ok v, r')
      | .ok none => (Except.error GetResultError.internalError, r')
  | none => (Except.error GetResultError.alreadyReceived, r)

/-- C5: evaluation of `try_get_result` at each retrieval state.  A call
before the result is ready yields `NotYetAvailable`; the first call after the
background task sent the result yields the action sequence (and spends the
oneshot channel, while `result_recv` stays `Some`); a second call therefore
hits the spent channel and yields `InternalError`, NOT the distinct
`AlreadyReceived` the claim (and the error type's own design) promises —
the `AlreadyReceived` branch is unreachable because `result_recv` is never
set to `None`; a background failure (payload `None`) yields
`InternalError`. -/
theorem c5_result_retrieval :
    (try_get_result ⟨some .empty⟩).1 = Except.error GetResultError.notYetAvailable ∧
    try_get_result ⟨some (.ready (some [⟨.key .power, 3⟩]))⟩ =
      (Except.ok [⟨.key .power, 3⟩], ⟨some .closed⟩) ∧
    (try_get_result ⟨some .closed⟩).1 = Except.error GetResultError.internalError ∧
    (try_get_result ⟨some (.ready none)⟩).1 = Except.error GetResultError.internalError ∧
    GetResultError.internalError ≠ GetResultError.alreadyReceived :=
  ⟨rfl, rfl, rfl, rfl, by decide⟩

/-- C8 (counterexample): with actions at relative timestamps [0, 50, 200]
(the last a Swipe with duration 30) and inter-loop delay 200, the sleeps
actually issued in the loop are [50, 150, 30, 200]: no zero-duration sleep
is issued before the first action (the code guards `if diff > 0`), so the
claimed issued-sleep list [0, 50, 150] (followed by 30 and 200) is wrong. -/
theorem c8_counterexample :
    runLoopBody (fun _ => false) 0 200
      [⟨.tap ⟨1, 2⟩, 0⟩, ⟨.tap ⟨3, 4⟩, 50⟩, ⟨.swipe ⟨5, 6, 7, 8, 30⟩, 200⟩] =
      some [PlayStep.status 0 (some 0), PlayStep.command (.tap ⟨1, 2⟩),
        PlayStep.sleep 50, PlayStep.status 0 (some 1), PlayStep.command (.tap ⟨3, 4⟩),
        PlayStep.sleep 150, PlayStep.status 0 (some 2),
        PlayStep.command (.swipe ⟨5, 6, 7, 8, 30⟩),
        PlayStep.sleep 30, PlayStep.status 0 none, PlayStep.sleep 200] ∧
    sleepsOf [PlayStep.status 0 (some 0), PlayStep.command (.tap ⟨1, 2⟩),
        PlayStep.sleep 50, PlayStep.status 0 (some 1), PlayStep.command (.tap ⟨3, 4⟩),
        PlayStep.sleep 150, PlayStep.status 0 (some 2),
        PlayStep.command (.swipe ⟨5, 6, 7, 8, 30⟩),
        PlayStep.sleep 30, PlayStep.status 0 none, PlayStep.sleep 200] =
      [50, 150, 30, 200] ∧
    ([50, 150, 30, 200] : List Nat) ≠ [0, 50, 150, 30, 200] ∧
    PlayStep.sleep 0 ∉ [PlayStep.status 0 (some 0), PlayStep.command (.tap ⟨1, 2⟩),
        PlayStep.sleep 50, PlayStep.status 0 (some 1), PlayStep.command (.tap ⟨3, 4⟩),
        PlayStep.sleep 150, PlayStep.status 0 (some 2),
        PlayStep.command (.swipe ⟨5, 6, 7, 8, 30⟩),
        PlayStep.sleep 30, PlayStep.status 0 none, PlayStep.sleep 200] := by
  decide

/-- C8 (amended): for the action sequence at relative timestamps
[0, 50, 200] whose last action is a Swipe of duration `D`, one playback loop
issues, in order: no sleep before the first action (its delta 0 is skipped by
the `diff > 0` guard), status 0, command; sleep 50, status 1, command;
sleep 150, status 2, command; then the extra `D`-millisecond sleep for the
final Swipe, the end-of-loop status (element `none`), and the configured
inter-loop delay sleep. -/
theorem c8_playback_timing (D delay : Nat) :
    runLoopBody (fun _ => false) 0 delay
      [⟨.tap ⟨1, 2⟩, 0⟩, ⟨.tap ⟨3, 4⟩, 50⟩, ⟨.swipe ⟨5, 6, 7, 8, D⟩, 200⟩] =
      some [PlayStep.status 0 (some 0), PlayStep.command (.tap ⟨1, 2⟩),
        PlayStep.sleep 50, PlayStep.status 0 (some 1), PlayStep.command (.tap ⟨3, 4⟩),
        PlayStep.sleep 150, PlayStep.status 0 (some 2),
        PlayStep.command (.swipe ⟨5, 6, 7, 8, D⟩),
        PlayStep.sleep D, PlayStep.status 0 none, PlayStep.sleep delay] := by
  rfl

/-- Cancellation induction over the per-action playback loop: when the
cancellation check first reports the signal at index `i + 1` (the signal
arrived after check `i` already passed, e.g. during the sleep preceding
action `i`), every action up to and including `i` is still issued, then the
loop breaks. -/
lemma playActions_cancel (cancelled : Nat → Bool) (rep i N : Nat)
    (hc : ∀ j, cancelled j = true ↔ i < j) (hiN : i + 1 < N) :
    ∀ (l : List InputWithTimestamp) (idx last_millis : Nat),
    idx + l.length = N → idx ≤ i →
    (∀ a ∈ l, last_millis ≤ a.timestamp_milliseconds) →
    List.Pairwise (· ≤ ·) (l.map (fun a => a.timestamp_milliseconds)) →
    ∃ tr, playActions cancelled rep idx last_millis l = some (tr, true) ∧
      commandsOf tr = (l.take (i + 1 - idx)).map (fun a => a.input) ∧
      (∀ r e, PlayStep.status r e ∈ tr → e ≠ none) ∧
      PlayStep.statusFinished ∉ tr := by
  intro l
  induction l with
  | nil =>
      intro idx last hN hidx _ _
      simp only [List.length_nil] at hN
      omega
  | cons a rest ih =>
      intro idx last hN hidx hlast hpair
      have hca : cancelled idx = false := by
        cases h : cancelled idx
        · rfl
        · exact absurd ((hc idx).mp h) (by omega)
      have hts : last ≤ a.timestamp_milliseconds := hlast a (List.mem_cons_self _ _)
      have hpc : (∀ b ∈ rest, a.timestamp_milliseconds ≤ b.timestamp_milliseconds) ∧
          List.Pairwise (· ≤ ·) (rest.map (fun b => b.timestamp_milliseconds)) := by
        simpa using hpair
      rw [playActions, if_neg (by simp [hca]), if_pos hts]
      by_cases heq : idx = i
      · -- the check before the next action sees the signal; rest is nonempty
        subst heq
        obtain ⟨b, rest', rfl⟩ : ∃ b rest', rest = b :: rest' := by
          cases rest with
          | nil => simp at hN; omega
          | cons b rest' => exact ⟨b, rest', rfl⟩
        have hstop : playActions cancelled rep (idx + 1) a.timestamp_milliseconds
            (b :: rest') = some ([], true) := by
          rw [playActions, if_pos ((hc (idx + 1)).mpr (by omega))]
        rw [hstop]
        refine ⟨_, rfl, ?_, ?_, ?_⟩
        · have h1 : idx + 1 - idx = 1 := by omega
          rw [h1]
          by_cases hdiff : a.timestamp_milliseconds - last > 0 <;>
            simp [commandsOf, hdiff]
        · intro r e hmem
          by_cases hdiff : a.timestamp_milliseconds - last > 0 <;>
            simp [hdiff] at hmem <;> rcases hmem with h | h | h <;> simp_all
        · by_cases hdiff : a.timestamp_milliseconds - last > 0 <;> simp [hdiff]
      · -- the check passes; recurse on the tail
        obtain ⟨tr', hgo, hcmd, hstat, hfin⟩ :=
          ih (idx + 1) a.timestamp_milliseconds (by simp at hN ⊢; omega) (by omega)
            hpc.1 hpc.2
        rw [hgo]
        refine ⟨_, rfl, ?_, ?_, ?_⟩
        · have h1 : i + 1 - idx = (i + 1 - (idx + 1)) + 1 := by omega
          rw [h1, List.take_succ_cons, List.map_cons, ← hcmd]
          by_cases hdiff : a.timestamp_milliseconds - last > 0 <;>
            simp [commandsOf, hdiff]
        · intro r e hmem
          rcases List.mem_append.mp hmem with h | h
          · by_cases hdiff : a.timestamp_milliseconds - last > 0
            · rw [if_pos hdiff] at h
              simp at h
            · rw [if_neg hdiff] at h
              simp at h
          · rcases List.mem_cons.mp h with h | h
            · simp only [PlayStep.status.injEq] at h
              rw [h.2]
              simp
            · rcases List.mem_cons.mp h with h | h
              · simp at h
              · exact hstat r e h
        · intro hmem
          rcases List.mem_append.mp hmem with h | h
          · by_cases hdiff : a.timestamp_milliseconds - last > 0
            · rw [if_pos hdiff] at h
              simp at h
            · rw [if_neg hdiff] at h
              simp at h
          · rcases List.mem_cons.mp h with h | h
            · simp at h
            · rcases List.mem_cons.mp h with h | h
              · simp at h
              · exact hfin h

/-- Completion induction over the per-action playback loop: when no
cancellation check in the index window reports the signal, every action is
issued in order, the loop runs to the end without breaking, every status
published carries an element index, and no `Finished` status is published. -/
lemma playActions_complete (cancelled : Nat → Bool) (rep : Nat) :
    ∀ (l : List InputWithTimestamp) (idx last_millis : Nat),
    (∀ j, idx ≤ j → j < idx + l.length → cancelled j = false) →
    (∀ a ∈ l, last_millis ≤ a.timestamp_milliseconds) →
    List.Pairwise (· ≤ ·) (l.map (fun a => a.timestamp_milliseconds)) →
    ∃ tr, playActions cancelled rep idx last_millis l = some (tr, false) ∧
      commandsOf tr = l.map (fun a => a.input) ∧
      (∀ r e, PlayStep.status r e ∈ tr → e ≠ none) ∧
      PlayStep.statusFinished ∉ tr := by
  intro l
  induction l with
  | nil =>
      intro idx last _ _ _
      exact ⟨[], rfl, rfl, by simp, by simp⟩
  | cons a rest ih =>
      intro idx last hwin hlast hpair
      have hca : cancelled idx = false :=
        hwin idx le_rfl (by simp only [List.length_cons]; omega)
      have hts : last ≤ a.timestamp_milliseconds := hlast a (List.mem_cons_self _ _)
      have hpc : (∀ b ∈ rest, a.timestamp_milliseconds ≤ b.timestamp_milliseconds) ∧
          List.Pairwise (· ≤ ·) (rest.map (fun b => b.timestamp_milliseconds)) := by
        simpa using hpair
      rw [playActions, if_neg (by simp [hca]), if_pos hts]
      obtain ⟨tr', hgo, hcmd, hstat, hfin⟩ :=
        ih (idx + 1) a.timestamp_milliseconds
          (fun j h1 h2 => hwin j (by omega) (by simp only [List.length_cons]; omega))
          hpc.1 hpc.2
      rw [hgo]
      refine ⟨_, rfl, ?_, ?_, ?_⟩
      · rw [List.map_cons, ← hcmd]
        by_cases hdiff : a.timestamp_milliseconds - last > 0 <;>
          simp [commandsOf, hdiff]
      · intro r e hmem
        rcases List.mem_append.mp hmem with h | h
        · by_cases hdiff : a.timestamp_milliseconds - last > 0
          · rw [if_pos hdiff] at h
            simp at h
          · rw [if_neg hdiff] at h
            simp at h
        · rcases List.mem_cons.mp h with h | h
          · simp only [PlayStep.status.injEq] at h
            rw [h.2]
            simp
          · rcases List.mem_cons.mp h with h | h
            · simp at h
            · exact hstat r e h
      · intro hmem
        rcases List.mem_append.mp hmem with h | h
        · by_cases hdiff : a.timestamp_milliseconds - last > 0
          · rw [if_pos hdiff] at h
            simp at h
          · rw [if_neg hdiff] at h
            simp at h
        · rcases List.mem_cons.mp h with h | h
          · simp at h
          · rcases List.mem_cons.mp h with h | h
            · simp at h
            · exact hfin h

/-- C6 (counterexample): actions at relative times [5, 10]; the signal
arrives during the sleep that precedes action 0 (check 0 already ran before
that sleep and saw nothing; check 1 is the first to see the signal).  The
claim says no action at index ≥ 0 is issued in that loop, but action 0 IS
issued — the cancellation check runs before the sleep, not between the sleep
and the command. -/
theorem c6_counterexample :
    runLoopBody (fun j => decide (0 < j)) 0 200 [⟨.tap ⟨1, 2⟩, 5⟩, ⟨.tap ⟨3, 4⟩, 10⟩] =
      some [PlayStep.sleep 5, PlayStep.status 0 (some 0), PlayStep.command (.tap ⟨1, 2⟩),
        PlayStep.statusFinished] ∧
    PlayStep.command (.tap ⟨1, 2⟩) ∈ ([PlayStep.sleep 5, PlayStep.status 0 (some 0),
      PlayStep.command (.tap ⟨1, 2⟩), PlayStep.statusFinished] : List PlayStep) := by
  decide

/-- C6 (amended): cancellation is checked before the sleep of each action, so
a signal received during the sleep that precedes action `i` (the checks up to
and including `i` saw nothing; every later check sees the signal) still lets
action `i` be issued.  If actions remain after `i`, the loop breaks at the
next check: no action at index ≥ i+1 is issued, no end-of-loop status is
published, and the player proceeds directly to Finished.  If `i` was the last
action, the iteration first runs to completion: every action is issued, the
end-of-loop status (element `none`) IS published and the inter-loop delay IS
slept, with no Finished in that iteration; the break to Finished only happens
at the first cancellation check of the next iteration. -/
theorem c6_cancellation_granularity (inputs : List InputWithTimestamp)
    (repetition delay i : Nat) (cancelled : Nat → Bool)
    (hsorted : List.Chain' (· ≤ ·) (inputs.map (fun a => a.timestamp_milliseconds)))
    (hi : i < inputs.length)
    (hc : ∀ j, cancelled j = true ↔ i < j) :
    (i + 1 < inputs.length →
      ∃ tr, runLoopBody cancelled repetition delay inputs = some tr ∧
        commandsOf tr = (inputs.take (i + 1)).map (fun a => a.input) ∧
        tr.getLast? = some PlayStep.statusFinished ∧
        (∀ r, PlayStep.status r none ∉ tr)) ∧
    (i + 1 = inputs.length →
      ∃ tr, runLoopBody cancelled repetition delay inputs = some tr ∧
        commandsOf tr = inputs.map (fun a => a.input) ∧
        PlayStep.status repetition none ∈ tr ∧
        PlayStep.sleep delay ∈ tr ∧
        PlayStep.statusFinished ∉ tr) ∧
    runLoopBody (fun _ => true) (repetition + 1) delay inputs =
      some [PlayStep.statusFinished] := by
  refine ⟨?_, ?_, ?_⟩
  · intro hi1
    obtain ⟨tr₀, hgo, hcmd, hstat, _⟩ :=
      playActions_cancel cancelled repetition i inputs.length hc hi1 inputs 0 0
        (by simp) (by omega) (fun a _ => Nat.zero_le _)
        (List.chain'_iff_pairwise.mp hsorted)
    refine ⟨tr₀ ++ [PlayStep.statusFinished], ?_, ?_, ?_, ?_⟩
    · rw [runLoopBody, hgo]
      rfl
    · rw [show commandsOf (tr₀ ++ [PlayStep.statusFinished]) = commandsOf tr₀ from by
        simp [commandsOf], hcmd]
      simp
    · rw [List.getLast?_append_of_ne_nil tr₀ (by simp)]
      rfl
    · intro r hmem
      rcases List.mem_append.mp hmem with h | h
      · exact hstat r none h rfl
      · simp at h
  · intro hieq
    obtain ⟨tr₀, hgo, hcmd, hstat, hfin⟩ :=
      playActions_complete cancelled repetition inputs 0 0
        (fun j _ hj => by
          cases h : cancelled j
          · rfl
          · exact absurd ((hc j).mp h) (by omega))
        (fun a _ => Nat.zero_le _)
        (List.chain'_iff_pairwise.mp hsorted)
    obtain ⟨tail, hshape, hrun⟩ : ∃ tail,
        (tail = [] ∨ ∃ ms, tail = [PlayStep.sleep ms]) ∧
        runLoopBody cancelled repetition delay inputs =
          some (tr₀ ++ tail ++
            [PlayStep.status repetition none, PlayStep.sleep delay]) := by
      rcases hlast : inputs.getLast? with _ | ⟨inp, ts⟩
      · refine ⟨[], Or.inl rfl, ?_⟩
        rw [runLoopBody, hgo]
        simp [hlast]
      · cases inp with
        | tap t =>
            refine ⟨[], Or.inl rfl, ?_⟩
            rw [runLoopBody, hgo]
            simp [hlast]
        | swipe s =>
            refine ⟨[PlayStep.sleep s.milliseconds], Or.inr ⟨s.milliseconds, rfl⟩, ?_⟩
            rw [runLoopBody, hgo]
            simp [hlast]
        | key k =>
            refine ⟨[], Or.inl rfl, ?_⟩
            rw [runLoopBody, hgo]
            simp [hlast]
    have htail_cmd : commandsOf tail = [] := by
      rcases hshape with rfl | ⟨ms, rfl⟩ <;> rfl
    refine ⟨tr₀ ++ tail ++ [PlayStep.status repetition none, PlayStep.sleep delay],
      hrun, ?_, ?_, ?_, ?_⟩
    · have hsplit : commandsOf (tr₀ ++ tail ++
          [PlayStep.status repetition none, PlayStep.sleep delay]) =
          commandsOf tr₀ ++ commandsOf tail ++
            commandsOf [PlayStep.status repetition none, PlayStep.sleep delay] := by
        simp [commandsOf]
      rw [hsplit, htail_cmd, hcmd]
      simp [commandsOf]
    · simp
    · simp
    · intro hmem
      rcases List.mem_append.mp hmem with h | h
      · rcases List.mem_append.mp h with h | h
        · exact hfin h
        · rcases hshape with rfl | ⟨ms, rfl⟩ <;> simp at h
      · simp at h
  · obtain ⟨a, rest, rfl⟩ : ∃ a rest, inputs = a :: rest := by
      cases inputs with
      | nil => exact absurd hi (by simp)
      | cons a rest => exact ⟨a, rest, rfl⟩
    rfl

/-- C6 witness: the amended theorem at the concrete two-action sequence with
the signal arriving during the sleep preceding action 0 (not the last
action), giving both the mid-sequence break behaviour and the
restarted-loop immediate break. -/
theorem c6_witness :
    List.Chain' (· ≤ ·)
      (([⟨.tap ⟨1, 2⟩, 5⟩, ⟨.tap ⟨3, 4⟩, 10⟩] : List InputWithTimestamp).map
        (fun a => a.timestamp_milliseconds)) ∧
    (0 < ([⟨.tap ⟨1, 2⟩, 5⟩, ⟨.tap ⟨3, 4⟩, 10⟩] : List InputWithTimestamp).length) ∧
    (∀ j, (fun j => decide (0 < j)) j = true ↔ 0 < j) ∧
    ((0 + 1 < ([⟨.tap ⟨1, 2⟩, 5⟩, ⟨.tap ⟨3, 4⟩, 10⟩] :
        List InputWithTimestamp).length →
      ∃ tr, runLoopBody (fun j => decide (0 < j)) 0 200
          [⟨.tap ⟨1, 2⟩, 5⟩, ⟨.tap ⟨3, 4⟩, 10⟩] = some tr ∧
        commandsOf tr = (([⟨.tap ⟨1, 2⟩, 5⟩, ⟨.tap ⟨3, 4⟩, 10⟩] :
            List InputWithTimestamp).take (0 + 1)).map (fun a => a.input) ∧
        tr.getLast? = some PlayStep.statusFinished ∧
        (∀ r, PlayStep.status r none ∉ tr)) ∧
     (0 + 1 = ([⟨.tap ⟨1, 2⟩, 5⟩, ⟨.tap ⟨3, 4⟩, 10⟩] :
        List InputWithTimestamp).length →
      ∃ tr, runLoopBody (fun j => decide (0 < j)) 0 200
          [⟨.tap ⟨1, 2⟩, 5⟩, ⟨.tap ⟨3, 4⟩, 10⟩] = some tr ∧
        commandsOf tr = ([⟨.tap ⟨1, 2⟩, 5⟩, ⟨.tap ⟨3, 4⟩, 10⟩] :
            List InputWithTimestamp).map (fun a => a.input) ∧
        PlayStep.status 0 none ∈ tr ∧
        PlayStep.sleep 200 ∈ tr ∧
        PlayStep.statusFinished ∉ tr) ∧
     runLoopBody (fun _ => true) (0 + 1) 200 [⟨.tap ⟨1, 2⟩, 5⟩, ⟨.tap ⟨3, 4⟩, 10⟩] =
       some [PlayStep.statusFinished]) :=
  ⟨by simp [List.chain'_cons], by decide, by intro j; simp,
   c6_cancellation_granularity [⟨.tap ⟨1, 2⟩, 5⟩, ⟨.tap ⟨3, 4⟩, 10⟩] 0 200 0
     (fun j => decide (0 < j)) (by simp [List.chain'_cons]) (by decide)
     (by intro j; simp)⟩

/-- C7 witness: the amended theorem applied to the concrete sorted sequence
[slot at t=2, power-key down at t=5]. -/
theorem c7_witness :
    List.Chain' (· ≤ ·)
      (([⟨2, 0, .absMtSlot 0⟩, ⟨5, 0, .keyPower .down⟩] : List InputEventInfo).map
        (fun e => e.timestamp_milliseconds)) ∧
    (relTime 2 ⟨2, 0, .absMtSlot 0⟩ = some 0 ∧
     convert_events_to_input [⟨2, 0, .absMtSlot 0⟩, ⟨5, 0, .keyPower .down⟩] 100 500 ≠
       Except.error ConvertPanic.subUnderflow ∧
     ∀ out, convert_events_to_input [⟨2, 0, .absMtSlot 0⟩, ⟨5, 0, .keyPower .down⟩] 100 500
         = Except.ok out →
       ∀ a ∈ out, ∃ e ∈ ([⟨2, 0, .absMtSlot 0⟩, ⟨5, 0, .keyPower .down⟩] :
           List InputEventInfo),
         a.timestamp_milliseconds + 2 = e.timestamp_milliseconds) :=
  ⟨by simp [List.chain'_cons],
   c7_reltime_welldefined ⟨2, 0, .absMtSlot 0⟩ [⟨5, 0, .keyPower .down⟩] 100 500
     (by simp [List.chain'_cons])⟩
